import Mathlib

/-!
Verification development for the CPA_AGENTS data-normalization and scoring
pipeline.  The Python sources are shallowly embedded: Python floats are
modelled as exact rationals, Python strings as Lean strings (operated on
through their character lists), and `datetime.strptime` is modelled by a
character-level parser that follows the regular expressions CPython builds
for the format directives used in this code base.
-/

namespace CPA

/-! ## Basic character and string utilities -/

/-- Numeric value of a decimal digit character. -/
def digVal (c : Char) : Nat := c.toNat - '0'.toNat

/-- Whitespace as matched by a regex `\s` / stripped by Python `strip()`
(ASCII subset: space, tab, newline, carriage return, form feed, vertical tab). -/
def pyIsSpace (c : Char) : Bool :=
  c = ' ' || c = '\t' || c = '\n' || c = '\r' || c = '\x0b' || c = '\x0c'

/-- Model of Python `str.lower()` on the character level (ASCII). -/
def lowerStr (s : String) : String := ⟨s.data.map Char.toLower⟩

/-- Does the character list `h` contain `n` as a contiguous sublist?
Models the Python `in` operator on strings and `Series.str.contains`
with a metacharacter-free pattern. -/
def subHas : List Char → List Char → Bool
  | h, n =>
    match h with
    | [] => n.isEmpty
    | _ :: t => n.isPrefixOf h || subHas t n

/-- Substring test on strings (Python `needle in hay`). -/
def strHas (hay needle : String) : Bool := subHas hay.data needle.data

/-- Model of Python `str.split(sep)` for a one-character separator. -/
def splitChar (sep : Char) : List Char → List (List Char)
  | [] => [[]]
  | c :: rest =>
    if c = sep then [] :: splitChar sep rest
    else
      match splitChar sep rest with
      | part :: parts => (c :: part) :: parts
      | [] => [[c]]

/-- Strip leading and trailing whitespace (Python `str.strip()`). -/
def stripWs (l : List Char) : List Char :=
  ((l.dropWhile pyIsSpace).reverse.dropWhile pyIsSpace).reverse

/-- Replace every maximal run of whitespace by the single character `repl`
(the effect of `re.sub(r'\s+', repl, ·)`); the flag records whether the
previous character was part of a whitespace run. -/
def collapseWs (repl : Char) : Bool → List Char → List Char
  | _, [] => []
  | prev, c :: rest =>
    if pyIsSpace c then
      if prev then collapseWs repl true rest
      else repl :: collapseWs repl true rest
    else c :: collapseWs repl false rest

/-! ## Python `round` on exact rationals

Python `round(x, n)` rounds half to even.  Floats are modelled as exact
rationals, so the model rounds the exact value half to even. -/

/-- Round half to even at `n` decimal digits (model of Python `round(x, n)`). -/
def pyRound (n : Nat) (q : ℚ) : ℚ :=
  let m : ℚ := (10 : ℚ) ^ n
  let x := q * m
  let f : ℤ := ⌊x⌋
  let r := x - (f : ℚ)
  let v : ℤ :=
    if r < 1/2 then f
    else if 1/2 < r then f + 1
    else if f % 2 = 0 then f else f + 1
  (v : ℚ) / m

/-! ## Dates: the subset of `datetime` used by the pipeline -/

/-- A parsed calendar date (`datetime` with the time fields all zero,
which is what `strptime` produces for pure date formats). -/
structure PyDate where
  year : Nat
  month : Nat
  day : Nat
deriving DecidableEq, Repr

/-- Gregorian leap-year test, as in `calendar.isleap` / `datetime`. -/
def isLeap (y : Nat) : Bool := y % 4 = 0 && (y % 100 ≠ 0 || y % 400 = 0)

/-- Number of days in a month, as validated by the `datetime` constructor. -/
def daysInMonth (y m : Nat) : Nat :=
  if m = 2 then (if isLeap y then 29 else 28)
  else if m = 4 || m = 6 || m = 9 || m = 11 then 30
  else 31

/-- Days before the first of month `m` within year `y`. -/
def daysBeforeMonth (y m : Nat) : Nat :=
  (List.range (m - 1)).foldl (fun acc i => acc + daysInMonth y (i + 1)) 0

/-- Proleptic Gregorian ordinal of a date (`datetime.toordinal`); the
difference of two ordinals is `timedelta.days` of the datetime difference. -/
def PyDate.ordinal (d : PyDate) : Nat :=
  let y := d.year - 1
  365 * y + y / 4 - y / 100 + y / 400 + daysBeforeMonth d.year d.month + d.day

/-- Order key for dates: `datetime` comparison is lexicographic on
(year, month, day); for calendar dates (month < 100, day < 100) this
numeric key realizes exactly that order. -/
def PyDate.key (d : PyDate) : Nat := d.year * 10000 + d.month * 100 + d.day

/-! ### `strptime`

CPython compiles a format string into a regular expression:
`%Y` becomes four digits, `%y` two digits (00-68 mapped to 20xx, 69-99 to
19xx), `%m` becomes `1[0-2]|0[1-9]|[1-9]`, `%d` becomes
`3[01]|[12]\d|0[1-9]|[1-9]`, `%B` an alternation of the month names
(case-insensitive), a literal matches itself and whitespace in the format
matches a whitespace run.  The whole string must be consumed, and the
matched fields must form a real calendar date.  In every format used by
this code base a numeric field is followed by a non-digit literal or by
the end of the input, so the greedy alternation below is equivalent to the
backtracking regex. -/

/-- One `strptime` directive of the formats used in the repository. -/
inductive Directive where
  | y4
  | y2
  | mnum
  | dnum
  | mname
  | litc (c : Char)
  | wsp
deriving DecidableEq, Repr

/-- Fields collected while matching a format (CPython collects the matched
groups and fills the missing ones with defaults afterwards). -/
structure StAcc where
  y : Option Nat
  m : Option Nat
  d : Option Nat
deriving DecidableEq, Repr

/-- Month names recognized by `%B`, with their numbers. -/
def monthNames : List (String × Nat) :=
  [("january", 1), ("february", 2), ("march", 3), ("april", 4),
   ("may", 5), ("june", 6), ("july", 7), ("august", 8),
   ("september", 9), ("october", 10), ("november", 11), ("december", 12)]

/-- Match one directive at the front of the input, updating the collected
fields and returning the rest of the input. -/
def stepDirective (dv : Directive) (acc : StAcc) (s : List Char) :
    Option (StAcc × List Char) :=
  match dv with
  | .y4 =>
    match s with
    | c1 :: c2 :: c3 :: c4 :: rest =>
      if c1.isDigit && c2.isDigit && c3.isDigit && c4.isDigit then
        some ({ acc with y := some (digVal c1 * 1000 + digVal c2 * 100 + digVal c3 * 10 + digVal c4) }, rest)
      else none
    | _ => none
  | .y2 =>
    match s with
    | c1 :: c2 :: rest =>
      if c1.isDigit && c2.isDigit then
        let v := digVal c1 * 10 + digVal c2
        some ({ acc with y := some (if v ≤ 68 then 2000 + v else 1900 + v) }, rest)
      else none
    | _ => none
  | .mnum =>
    match s with
    | c1 :: c2 :: rest =>
      if c1 = '1' && ('0' ≤ c2 && c2 ≤ '2') then
        some ({ acc with m := some (10 + digVal c2) }, rest)
      else if c1 = '0' && ('1' ≤ c2 && c2 ≤ '9') then
        some ({ acc with m := some (digVal c2) }, rest)
      else if '1' ≤ c1 && c1 ≤ '9' then
        some ({ acc with m := some (digVal c1) }, c2 :: rest)
      else none
    | [c1] =>
      if '1' ≤ c1 && c1 ≤ '9' then some ({ acc with m := some (digVal c1) }, [])
      else none
    | [] => none
  | .dnum =>
    match s with
    | c1 :: c2 :: rest =>
      if c1 = '3' && (c2 = '0' || c2 = '1') then
        some ({ acc with d := some (30 + digVal c2) }, rest)
      else if (c1 = '1' || c1 = '2') && c2.isDigit then
        some ({ acc with d := some (digVal c1 * 10 + digVal c2) }, rest)
      else if c1 = '0' && ('1' ≤ c2 && c2 ≤ '9') then
        some ({ acc with d := some (digVal c2) }, rest)
      else if '1' ≤ c1 && c1 ≤ '9' then
        some ({ acc with d := some (digVal c1) }, c2 :: rest)
      else none
    | [c1] =>
      if '1' ≤ c1 && c1 ≤ '9' then some ({ acc with d := some (digVal c1) }, [])
      else none
    | [] => none
  | .mname =>
    (monthNames.filterMap (fun nm =>
      let pat := nm.1.data
      if pat.isPrefixOf (s.map Char.toLower) then some ({ acc with m := some nm.2 }, s.drop pat.length)
      else none)).head?
  | .litc c =>
    match s with
    | x :: rest => if x = c then some (acc, rest) else none
    | [] => none
  | .wsp =>
    match s with
    | x :: rest => if pyIsSpace x then some (acc, rest.dropWhile pyIsSpace) else none
    | [] => none

/-- Match a whole directive list against the input. -/
def runDirectives : List Directive → StAcc → List Char → Option (StAcc × List Char)
  | [], acc, s => some (acc, s)
  | dv :: ds, acc, s =>
    match stepDirective dv acc s with
    | some (acc2, s2) => runDirectives ds acc2 s2
    | none => none

/-- Build the `datetime` from the collected fields: missing fields get the
`strptime` defaults (year 1900, month 1, day 1) and the constructor
validates the calendar ranges. -/
def buildDate (acc : StAcc) : Option PyDate :=
  let y := acc.y.getD 1900
  let m := acc.m.getD 1
  let d := acc.d.getD 1
  if 1 ≤ y && y ≤ 9999 && 1 ≤ m && m ≤ 12 && 1 ≤ d && d ≤ daysInMonth y m then
    some ⟨y, m, d⟩
  else none

/-- `datetime.strptime(s, fmt)` for the date formats of this repository:
the whole input must be consumed and the result must be a valid date. -/
def strptime (fmt : List Directive) (s : String) : Option PyDate :=
  (runDirectives fmt ⟨none, none, none⟩ s.data).bind fun pr =>
    if pr.2 = [] then buildDate pr.1 else none

/-- Format `"%Y-%m-%d"`. -/
def fmtYmdDash : List Directive := [.y4, .litc '-', .mnum, .litc '-', .dnum]

/-- Format `"%m/%d/%y"`. -/
def fmtMdy2 : List Directive := [.mnum, .litc '/', .dnum, .litc '/', .y2]

/-- Format `"%m/%d/%Y"`. -/
def fmtMdY4 : List Directive := [.mnum, .litc '/', .dnum, .litc '/', .y4]

/-- Format `"%d/%m/%Y"`. -/
def fmtDmY4 : List Directive := [.dnum, .litc '/', .mnum, .litc '/', .y4]

/-- Format `"%B %d, %Y"`. -/
def fmtBdY : List Directive := [.mname, .wsp, .dnum, .litc ',', .wsp, .y4]

/-- Format `"%Y/%m/%d"`. -/
def fmtYmdSlash : List Directive := [.y4, .litc '/', .mnum, .litc '/', .dnum]

/-- `data_helpers.parse_date`: an empty value parses to nothing, otherwise
the formats `%Y-%m-%d`, `%m/%d/%y`, `%m/%d/%Y`, `%d/%m/%Y`, `%B %d, %Y`
are tried in that order and the first success wins. -/
def parse_date (s : String) : Option PyDate :=
  if s = "" then none
  else
    strptime fmtYmdDash s <|> strptime fmtMdy2 s <|> strptime fmtMdY4 s <|>
      strptime fmtDmY4 s <|> strptime fmtBdY s

/-- `NumericAnalysisAgent._parse_date`: formats `%Y-%m-%d`, `%m/%d/%Y`,
`%m/%d/%y`, `%d/%m/%Y`, `%Y/%m/%d`, first success wins. -/
def agent_parse_date (s : String) : Option PyDate :=
  if s = "" then none
  else
    strptime fmtYmdDash s <|> strptime fmtMdY4 s <|> strptime fmtMdy2 s <|>
      strptime fmtDmY4 s <|> strptime fmtYmdSlash s

/-- The inline date parsing of `_calculate_pattern_confidence`: formats
`%Y-%m-%d`, `%m/%d/%Y`, `%m/%d/%y`, first success wins. -/
def conf_parse_date (s : String) : Option PyDate :=
  strptime fmtYmdDash s <|> strptime fmtMdY4 s <|> strptime fmtMdy2 s

/-! ## Recency weight (`data_helpers.calculate_recency_weight`) -/

/-- The current wall-clock date (`datetime.now()`); only the year and the
month are read by the recency computation. -/
structure NowDate where
  year : Nat
  month : Nat

/-- `(current_date.year - date_obj.year) * 12 + (current_date.month - date_obj.month)`. -/
def monthsDifference (now : NowDate) (d : PyDate) : ℤ :=
  ((now.year : ℤ) - (d.year : ℤ)) * 12 + ((now.month : ℤ) - (d.month : ℤ))

/-- The weighting rule applied to the month difference. -/
def weightFromMonths (m : ℤ) : ℚ :=
  if m ≤ 3 then 1
  else if 9 ≤ m then 0
  else 1 - ((m : ℚ) - 3) / 6

/-- `data_helpers.calculate_recency_weight`: missing or unparseable dates
fall back to the mid-weight 0.5, otherwise the month-difference rule. -/
def calculate_recency_weight (now : NowDate) (dateValue : String) : ℚ :=
  if dateValue = "" then 1/2
  else
    match parse_date dateValue with
    | none => 1/2
    | some d => weightFromMonths (monthsDifference now d)

/-! ## Trend classifier (`NumericAnalysisAgent._calculate_trend_fixed`) -/

/-- One entry of `scores_with_dates`: a date string, a score and a recency
weight (the weight is carried along but not used by the trend computation). -/
structure TrendItem where
  date : String
  score : ℚ
  weight : ℚ

/-- The returned trend dictionary.  The two insufficient-data branches
return only `direction` and `magnitude`; the main branch also returns the
rounded change, the raw earliest and latest scores and a time-span label,
modelled as optional fields. -/
structure TrendResult where
  direction : String
  magnitude : ℚ
  change : Option ℚ
  earliest_score : Option ℚ
  most_recent_score : Option ℚ
  time_span : Option String
deriving DecidableEq

/-- The direction branch of `_calculate_trend_fixed` (lines 322-326):
below 0.3 of absolute change the trend is stable, otherwise the sign of
the change decides. -/
def trendDirection (change : ℚ) : String :=
  if |change| < 3/10 then "stable"
  else if change > 0 then "improving"
  else "declining"

/-- The `{"direction": "stable", "magnitude": 0}` result of the two
insufficient-data branches. -/
def trendInsufficient : TrendResult :=
  ⟨"stable", 0, none, none, none, none⟩

/-- Date-discarding step: keep the entries whose date parses (with the
agent date formats), as (parsed date, score, weight). -/
def trendParsed (items : List TrendItem) : List (PyDate × ℚ × ℚ) :=
  items.filterMap fun it => (agent_parse_date it.date).map (fun dt => (dt, it.score, it.weight))

/-- The chronological sort of the parsed entries.  Python `list.sort` is a
stable sort by the parsed date; the stable insertion sort over the date
key produces the identical list. -/
def trendSorted (items : List TrendItem) : List (PyDate × ℚ × ℚ) :=
  List.insertionSort (fun a b => a.1.key ≤ b.1.key) (trendParsed items)

/-- Zero-pad a number to four digits (for the `%Y` of `strftime "%Y-%m"`). -/
def pad4 (n : Nat) : String :=
  let s := toString n
  ⟨List.replicate (4 - s.length) '0' ++ s.data⟩

/-- Zero-pad a number to two digits (for the `%m` of `strftime "%Y-%m"`). -/
def pad2 (n : Nat) : String :=
  let s := toString n
  ⟨List.replicate (2 - s.length) '0' ++ s.data⟩

/-- `strftime("%Y-%m")`. -/
def fmtYearMonth (d : PyDate) : String := pad4 d.year ++ "-" ++ pad2 d.month

/-- `NumericAnalysisAgent._calculate_trend_fixed`: fewer than two raw
entries, or fewer than two entries with parseable dates, yield the stable
zero result; otherwise the change between the last and the first score in
chronological order is classified and the magnitude normalized by the
4-point scale, both rounded to two decimals in the returned dictionary. -/
def calculate_trend_fixed (items : List TrendItem) : TrendResult :=
  if items.length < 2 then trendInsufficient
  else
    let parsed := trendParsed items
    if parsed.length < 2 then trendInsufficient
    else
      let sorted := trendSorted items
      let earliest := ((sorted.head?).map (fun p => p.2.1)).getD 0
      let most_recent := ((sorted.getLast?).map (fun p => p.2.1)).getD 0
      let change := most_recent - earliest
      let direction := trendDirection change
      let magnitude := min 1 (|change| / 4)
      let span :=
        ((sorted.head?).map (fun p => fmtYearMonth p.1)).getD "" ++ " to " ++
          ((sorted.getLast?).map (fun p => fmtYearMonth p.1)).getD ""
      ⟨direction, pyRound 2 magnitude, some (pyRound 2 change),
        some earliest, some most_recent, some span⟩

/-! ## Temporal progression (`NumericAnalysisAgent._analyze_temporal_progression`) -/

/-- The direction branch of `_analyze_temporal_progression` (lines
265-275): `epa_trend` starts as `"stable"` and is replaced only when the
change is strictly above 0.3 or strictly below -0.3. -/
def progressionDirection (change : ℚ) : String :=
  if change > 3/10 then "improving"
  else if change < -(3/10) then "declining"
  else "stable"

/-- One entry of `temporal_data` restricted to what the EPA progression
reads: the numeric `epa*` scores of the evaluation, as a key-value list
(the Python dict; at most one binding per key is ever created). -/
structure TempEval where
  epa_scores : List (String × ℚ)

/-- The reasoning-relevant fields `["epa1", "epa2", "epa3"]`. -/
def reasoningEpas : List String := ["epa1", "epa2", "epa3"]

/-- Mean of the reasoning EPA scores present in one evaluation, if any
(the `period_scores` accumulation for one `eval_data`). -/
def evalReasoningMean (ev : TempEval) : Option ℚ :=
  let ss := reasoningEpas.filterMap fun k => (ev.epa_scores.find? (fun p => p.1 == k)).map (·.2)
  if ss.isEmpty then none else some (ss.sum / ss.length)

/-- Average of a list of rationals (`sum(l) / len(l)`). -/
def listAvg (l : List ℚ) : ℚ := l.sum / l.length

/-- The `epa_progression` direction and change computed on the
chronologically sorted `temporal_data`: first half versus second half
(integer division), per-evaluation reasoning means, and the ±0.3 branch. -/
def epaProgression (tdata : List TempEval) : String × ℚ :=
  let early := tdata.take (tdata.length / 2)
  let recent := tdata.drop (tdata.length / 2)
  let earlyScores := early.filterMap evalReasoningMean
  let recentScores := recent.filterMap evalReasoningMean
  if earlyScores.isEmpty || recentScores.isEmpty then ("stable", 0)
  else
    let change := listAvg recentScores - listAvg earlyScores
    (progressionDirection change, change)

/-! ## Pattern confidence (`TextAnalysisAgent._calculate_pattern_confidence`) -/

/-- One supporting evidence item; the Python code reads the keys
`rotation`, `date` and `evaluator_role` with defaults `"Unknown"`, `""`
and `"Unknown"`, modelled as always-present fields. -/
structure Evidence where
  rotation : String
  date : String
  evaluator_role : String
deriving DecidableEq

/-- The returned confidence dictionary. -/
structure ConfResult where
  confidence : String
  score : ℚ
  description : String
deriving DecidableEq

/-- Base score from the evaluator count. -/
def baseScore (n : Nat) : ℚ :=
  if n ≥ 4 then 1
  else if n = 3 then 7/10
  else if n = 2 then 2/5
  else 1/10

/-- Remove every occurrence of `pat` from the list, scanning left to
right over non-overlapping occurrences: Python `str.replace(pat, "")`.
The fuel argument (instantiated with the input length, which every
recursive call stays below) only makes the recursion structural. -/
def removeSubF (pat : List Char) : Nat → List Char → List Char
  | 0, l => l
  | _ + 1, [] => []
  | fuel + 1, c :: rest =>
    if !pat.isEmpty && pat.isPrefixOf (c :: rest) then
      removeSubF pat fuel ((c :: rest).drop pat.length)
    else c :: removeSubF pat fuel rest

/-- Python `str.replace(pat, "")` on character lists. -/
def removeSub (pat l : List Char) : List Char := removeSubF pat l.length l

/-- Rotation label normalization:
`rotation.lower().replace("clinical performance assessment", "").strip()`. -/
def cleanRotation (r : String) : String :=
  ⟨stripWs (removeSub "clinical performance assessment".data (lowerStr r).data)⟩

/-- The set `unique_rotations`: distinct cleaned labels of the non-Unknown
rotations, dropping the ones that clean to the empty string (a Python set,
modelled as a deduplicated list: only cardinality and membership are used). -/
def uniqueRotations (ev : List Evidence) : List String :=
  ((((ev.map (·.rotation)).filter (· ≠ "Unknown")).map cleanRotation).filter (· ≠ "")).dedup

/-- Cross-rotation multiplier: 1.3 from three distinct rotations, 1.15
from two, nothing otherwise. -/
def rotationMultiplier (ev : List Evidence) : ℚ :=
  let n := (uniqueRotations ev).length
  if n ≥ 3 then 13/10
  else if n = 2 then 23/20
  else 1

/-- The set `unique_dates`: distinct date strings that are nonempty and
not `"Unknown date"`. -/
def uniqueDates (ev : List Evidence) : List String :=
  ((ev.map (·.date)).filter (fun d => d ≠ "" && d ≠ "Unknown date")).dedup

/-- Temporal multiplier: with at least two distinct dates of which at
least two parse, a span above 30 days boosts by 1.2 and a span above 7
days by 1.1; otherwise no boost.  (The `except` fallback of the source is
unreachable: the wrapped operations cannot raise once the inner
`ValueError` handler absorbs the parse failures.) -/
def temporalMultiplier (ev : List Evidence) : ℚ :=
  let ds := uniqueDates ev
  if ds.length ≥ 2 then
    let parsed := ds.filterMap conf_parse_date
    if parsed.length ≥ 2 then
      let keys := parsed.map PyDate.ordinal
      let span := keys.foldl max 0 - keys.foldl min (keys.headD 0)
      if span > 30 then 6/5
      else if span > 7 then 11/10
      else 1
    else 1
  else 1

/-- The set `unique_roles`: distinct lower-cased roles of the non-Unknown
evaluator roles. -/
def uniqueRoles (ev : List Evidence) : List String :=
  (((ev.map (·.evaluator_role)).filter (· ≠ "Unknown")).map lowerStr).dedup

/-- Does some collected role mention residents? -/
def hasResident (ev : List Evidence) : Bool :=
  (uniqueRoles ev).any (fun r => strHas r "resident")

/-- Does some collected role mention attendings? -/
def hasAttending (ev : List Evidence) : Bool :=
  (uniqueRoles ev).any (fun r => strHas r "attending")

/-- Role-diversity multiplier. -/
def roleMultiplier (ev : List Evidence) : ℚ :=
  if hasResident ev && hasAttending ev then 11/10 else 1

/-- The combined context-validation multiplier, accumulated in source order. -/
def confMultiplier (ev : List Evidence) : ℚ :=
  rotationMultiplier ev * temporalMultiplier ev * roleMultiplier ev

/-- The `boosts` list of the description: rotation and role reasons appear
exactly when their boost fired, but the temporal reason appears whenever
at least two distinct dates exist, even when the temporal factor was 1.0. -/
def boostList (ev : List Evidence) : List String :=
  (if (uniqueRotations ev).length ≥ 2 then ["cross-rotation consistency"] else []) ++
    (if (uniqueDates ev).length ≥ 2 then ["temporal consistency"] else []) ++
      (if hasResident ev && hasAttending ev then ["role diversity"] else [])

/-- The `"<n> evaluator(s) across <k> rotation(s)"` base description. -/
def descBase (ev : List Evidence) : String :=
  let ecount := ev.length
  let rcount := (uniqueRotations ev).length
  let rotationDesc :=
    if rcount > 0 then toString rcount ++ " rotation" ++ (if rcount ≠ 1 then "s" else "")
    else "unknown rotations"
  toString ecount ++ " evaluator" ++ (if ecount ≠ 1 then "s" else "") ++ " across " ++ rotationDesc

/-- The confidence level thresholds on the final score. -/
def confLevel (final : ℚ) : String :=
  if final ≥ 4/5 then "high"
  else if final ≥ 3/5 then "medium-high"
  else if final ≥ 7/20 then "medium"
  else if final ≥ 3/20 then "low-medium"
  else "low"

/-- The returned description: the base description gets the
`" (boosted by ...)"` suffix exactly when the total multiplier exceeds 1
and the boost list is nonempty. -/
def confDescription (ev : List Evidence) : String :=
  if confMultiplier ev > 1 then
    let boosts := boostList ev
    if ¬ boosts.isEmpty then
      descBase ev ++ " (boosted by " ++ String.intercalate ", " boosts ++ ")"
    else descBase ev
  else descBase ev

/-- `TextAnalysisAgent._calculate_pattern_confidence`: empty evidence
short-circuits; otherwise the capped product of base score and multiplier
is rounded to three decimals, levelled, and described with the boost
suffix when the total multiplier exceeds 1. -/
def calculate_pattern_confidence (ev : List Evidence) : ConfResult :=
  if ev.isEmpty then ⟨"low", 0, "No supporting evidence"⟩
  else
    let base := baseScore ev.length
    let mult := confMultiplier ev
    let final := min 1 (base * mult)
    ⟨confLevel final, pyRound 3 final, confDescription ev⟩

/-! ## The data cleaner (`data_processing/data_cleaner.py`)

The raw CSV is read with `dtype=str` and `fillna('')`, so every cell of a
`RawRow` is a string and the missing value is the empty string; on such a
column `pd.notna` is true for every cell (including the empty string). -/

/-- One row of the long-format export, with the columns the cleaner reads. -/
structure RawRow where
  student : String
  formname : String
  phasename : String
  academicyearname : String
  releasedate : String
  questionname : String
  questionchoicetext : String
  rating_answer_sortorder : String
  ratingscalequestiontext : String
  text_answer_category : String
  text_answer : String
deriving DecidableEq

/-- `pd.notna` on a string-typed, `fillna('')`-ed column: always true. -/
def notnaStr (_ : String) : Bool := true

/-- Is this the sentinel role-selection row? -/
def isRoleRow (r : RawRow) : Bool := r.questionname == "Please select your role:"

/-- Positions (in increasing order) of the rows satisfying `p`:
`form_df[p].index.tolist()` after `reset_index`. -/
def indicesWhere (p : RawRow → Bool) : List RawRow → List Nat
  | [] => []
  | r :: rest =>
    (if p r then [0] else []) ++ (indicesWhere p rest).map (· + 1)

/-- Consecutive pairs of a list: `(l[i], l[i+1])` for each `i`. -/
def consecPairs : List Nat → List (Nat × Nat)
  | a :: b :: rest => (a, b) :: consecPairs (b :: rest)
  | _ => []

/-- The boundary list: the sentinel positions with the table length
appended as the end marker. -/
def blockBounds (rows : List RawRow) : List Nat :=
  indicesWhere isRoleRow rows ++ [rows.length]

/-- `DataCleaner._identify_evaluator_blocks`: one slice
`rows[start : next_start]` per sentinel position. -/
def identify_evaluator_blocks (rows : List RawRow) : List (List RawRow) :=
  (consecPairs (blockBounds rows)).map fun pr => (rows.drop pr.1).take (pr.2 - pr.1)

/-- The grouping key `f"{formname}|{phasename}|{academicyearname}|{releasedate}"`. -/
def formKey (r : RawRow) : String :=
  r.formname ++ "|" ++ r.phasename ++ "|" ++ r.academicyearname ++ "|" ++ r.releasedate

/-- Two adjacent pipes somewhere in the list (`'||' in form_key`). -/
def pipePipe : List Char → Bool
  | [] => false
  | [_] => false
  | a :: b :: rest => (a = '|' && b = '|') || pipePipe (b :: rest)

/-- `form_key.split('|')`. -/
def formKeyParts (k : String) : List String :=
  (splitChar '|' k.data).map fun l => ⟨l⟩

/-- The two skip tests applied to a form key: `'||' in form_key` and
`len(form_key.split('|')) != 4`. -/
def skipFormKey (k : String) : Bool :=
  pipePipe k.data || (formKeyParts k).length ≠ 4

/-- A cell of an emitted record: the base fields are strings, the rating
fields are optional integers. -/
inductive CellVal where
  | str (v : String)
  | iopt (v : Option Int)
deriving DecidableEq

/-- An emitted record, modelled as the lookup function of the Python
dict: later assignments to a key shadow earlier ones. -/
def Record := String → Option CellVal

/-- Dict assignment `rec[k] = v`. -/
def rset (rec : Record) (k : String) (v : CellVal) : Record :=
  fun q => if q = k then some v else rec q

/-- Apply an optional key-value update (the per-row body of one of the
rating loops: `none` models a `continue`/guard skip). -/
def applyKV (rec : Record) (kv : Option (String × CellVal)) : Record :=
  match kv with
  | some p => rset rec p.1 p.2
  | none => rec

/-- `DataCleaner._convert_to_key`: lower-case, drop the characters that
are neither word characters nor whitespace, strip, and replace whitespace
runs by underscores. -/
def convert_to_key (text : String) : String :=
  if text = "" then ""
  else
    let kept := (text.data.map Char.toLower).filter fun c =>
      c.isAlpha || c.isDigit || c = '_' || pyIsSpace c
    ⟨collapseWs '_' false (stripWs kept)⟩

/-- Python `int(str)`: optional surrounding whitespace, an optional sign
and at least one digit (digit-group underscores are not modelled; the
ratings of this data set are plain digit strings). -/
def pyIntOfString (s : String) : Option Int :=
  let t := stripWs s.data
  let core : Option (List Char) :=
    match t with
    | '+' :: rest => some rest
    | '-' :: rest => some rest
    | l => some l
  match core with
  | some digits =>
    if !digits.isEmpty && digits.all Char.isDigit then
      let v : Int := digits.foldl (fun acc c => acc * 10 + (digVal c : Int)) 0
      some (if t.head? = some '-' then -v else v)
    else none
  | none => none

/-- `DataCleaner._safe_int`: empty cells become `None`, otherwise
`int(value)` with failures coerced to `None`. -/
def safe_int (value : String) : Option Int :=
  if value = "" then none else pyIntOfString value

/-- Left-pad with zeros to two characters (`str.zfill(2)` on the digit
strings this cleaner feeds it). -/
def zfill2 (s : String) : String :=
  ⟨List.replicate (2 - s.data.length) '0' ++ s.data⟩

/-- `DataCleaner._format_date`: a value of the shape
`"M/D/YY HH:MM"` becomes `"20YY-MM-DD"`; anything else is returned
unchanged (unpacking failures are swallowed). -/
def format_date (date_string : String) : String :=
  if date_string = "" then ""
  else if strHas date_string " " then
    match splitChar ' ' date_string.data with
    | [datePart, _timePart] =>
      match splitChar '/' datePart with
      | [m, d, y2] => ("20" ++ (⟨y2⟩ : String)) ++ "-" ++ zfill2 ⟨m⟩ ++ "-" ++ zfill2 ⟨d⟩
      | _ => date_string
    | _ => date_string
  else date_string

/-- Is `c` allowed inside a `<...>` placeholder tag (`[A-Z_]`)? -/
def isTagChar (c : Char) : Bool := ('A' ≤ c && c ≤ 'Z') || c = '_'

/-- After an opening `<`, consume a nonempty `[A-Z_]` run followed by `>`
and return the rest, if the input starts that way. -/
def takeTagRun (rest : List Char) : Option (List Char) :=
  let run := rest.takeWhile isTagChar
  if !run.isEmpty && (rest.drop run.length).head? = some '>' then
    some (rest.drop (run.length + 1))
  else none

/-- Replace every `<UPPERCASE_TAG>` with `[REDACTED]`
(`re.sub(r'<[A-Z_]+>', '[REDACTED]', ·)`); the fuel argument
(instantiated with the input length) makes the recursion structural. -/
def tagScanF : Nat → List Char → List Char
  | 0, l => l
  | _ + 1, [] => []
  | fuel + 1, c :: rest =>
    if c = '<' then
      match takeTagRun rest with
      | some rest2 => "[REDACTED]".data ++ tagScanF fuel rest2
      | none => c :: tagScanF fuel rest
    else c :: tagScanF fuel rest

/-- `DataCleaner._clean_comment`: redact placeholder tags, collapse
whitespace runs to single spaces and strip. -/
def clean_comment (comment : String) : String :=
  if comment = "" then ""
  else
    let redacted := tagScanF comment.data.length comment.data
    ⟨stripWs (collapseWs ' ' false redacted)⟩

/-- First match of `re.search(r'EPA\s*(\d+)', s)` starting at the current
position: the literal `EPA`, an optional whitespace run, then a nonempty
digit group (returned as written, keeping leading zeros). -/
def epaTry (l : List Char) : Option (List Char) :=
  match l with
  | 'E' :: 'P' :: 'A' :: rest =>
    let afterWs := rest.dropWhile pyIsSpace
    let digits := afterWs.takeWhile Char.isDigit
    if digits.isEmpty then none else some digits
  | _ => none

/-- `re.search` scans position by position for the first match. -/
def epaSearch : List Char → Option (List Char)
  | [] => none
  | c :: rest =>
    match epaTry (c :: rest) with
    | some digits => some digits
    | none => epaSearch rest

/-- The professionalism rating filter:
`questionname == "Professionalism:"` and `rating_answer_sortorder` not NA
(the latter is vacuous on this string column). -/
def profRows (block : List RawRow) : List RawRow :=
  block.filter fun r =>
    (r.questionname == "Professionalism:") && notnaStr r.rating_answer_sortorder

/-- The communication rating filter: question names containing
`"Communication:"`, the advocacy phrase, or `"CES competency"`. -/
def commRows (block : List RawRow) : List RawRow :=
  block.filter fun r =>
    (strHas r.questionname "Communication:" ||
      strHas r.questionname "Advocates for patients by addressing social determinants" ||
      strHas r.questionname "CES competency") && notnaStr r.rating_answer_sortorder

/-- The EPA rating filter: question names containing `"EPA"`. -/
def epaRows (block : List RawRow) : List RawRow :=
  block.filter fun r => strHas r.questionname "EPA" && notnaStr r.rating_answer_sortorder

/-- The key-value update contributed by one professionalism row:
rows with an empty rating-scale question text are skipped. -/
def profKV (r : RawRow) : Option (String × CellVal) :=
  if r.ratingscalequestiontext ≠ "" then
    some ("prof_" ++ convert_to_key r.ratingscalequestiontext,
      .iopt (safe_int r.rating_answer_sortorder))
  else none

/-- The key-value update contributed by one communication row: the fixed
3-way keyword dispatch; rows matching no keyword group are skipped. -/
def commKV (r : RawRow) : Option (String × CellVal) :=
  let qn := r.questionname
  let key : Option String :=
    if strHas qn "Listening" || strHas qn "listening" then some "comm_listening"
    else if strHas qn "shared decision" || strHas qn "decision making" then
      some "comm_decision_making"
    else if strHas qn "Advocates for patients" || strHas qn "social determinants" ||
        strHas qn "CES competency" then some "comm_advocacy"
    else none
  key.map fun k => (k, .iopt (safe_int r.rating_answer_sortorder))

/-- The key-value update contributed by one EPA row: rows whose question
name has no `EPA<number>` match are skipped. -/
def epaKV (r : RawRow) : Option (String × CellVal) :=
  (epaSearch r.questionname.data).map fun digits =>
    ("epa" ++ (⟨digits⟩ : String), .iopt (safe_int r.rating_answer_sortorder))

/-- The `base_row` dict literal of `_process_data`. -/
def baseRecord (student form phase year rdate role freq strength improve : String) : Record :=
  rset (rset (rset (rset (rset (rset (rset (rset (rset (fun _ => none)
    "student_id" (.str student))
    "form_name" (.str form))
    "phase_name" (.str phase))
    "academic_year" (.str year))
    "release_date" (.str rdate))
    "evaluator_role" (.str role))
    "frequency" (.str freq))
    "strengths_comment" (.str strength))
    "improvements_comment" (.str improve)

/-- First element of a filtered sub-table, as `iloc[0]` with the
emptiness guards of the source: the default is the empty string. -/
def firstChoiceText (block : List RawRow) (qname : String) : String :=
  match block.filter (fun r => r.questionname == qname) with
  | [] => ""
  | r :: _ => r.questionchoicetext

/-- First comment of the given text-answer category, sanitized. -/
def firstComment (block : List RawRow) (category : String) : String :=
  match block.filter (fun r => r.text_answer_category == category) with
  | [] => ""
  | r :: _ => clean_comment r.text_answer

/-- Process one evaluator block into a record: blocks without a role row
are skipped, otherwise the base fields are populated and the three rating
loops run in source order (professionalism, communication, EPA). -/
def blockRecord (student form phase year rdate : String) (block : List RawRow) :
    Option Record :=
  match block.filter isRoleRow with
  | [] => none
  | roleRow :: _ =>
    let role := roleRow.questionchoicetext
    let freq := firstChoiceText block "Frequency"
    let rec0 := baseRecord student form phase year (format_date rdate) role freq
      (firstComment block "positive") (firstComment block "improvement")
    let rec1 := (profRows block).foldl (fun acc r => applyKV acc (profKV r)) rec0
    let rec2 := (commRows block).foldl (fun acc r => applyKV acc (commKV r)) rec1
    let rec3 := (epaRows block).foldl (fun acc r => applyKV acc (epaKV r)) rec2
    some rec3

/-- Lexicographic comparison of character lists by code point: the order
`sorted`/pandas `groupby` uses on Python strings. -/
def charListLe : List Char → List Char → Bool
  | [], _ => true
  | _ :: _, [] => false
  | a :: as, b :: bs => if a < b then true else if b < a then false else charListLe as bs

/-- The distinct group keys in sorted order (pandas `groupby` sorts the
group keys; each group keeps the original row order). -/
def sortedKeys (keys : List String) : List String :=
  List.insertionSort (fun a b => charListLe a.data b.data = true) keys.dedup

/-- The records contributed by one form-key group of one student: a key
containing `||` or not splitting into exactly four parts is skipped,
otherwise every evaluator block of the group yields at most one record. -/
def keyContribution (student : String) (rows : List RawRow) (k : String) : List Record :=
  if skipFormKey k then []
  else
    match formKeyParts k with
    | [form, phase, year, rdate] =>
      (identify_evaluator_blocks (rows.filter (fun r => formKey r == k))).filterMap
        (blockRecord student form phase year rdate)
    | _ => []

/-- All records of one student: group the rows by form key (sorted keys,
original order within a group) and concatenate the group contributions. -/
def processStudentRows (student : String) (rows : List RawRow) : List Record :=
  (sortedKeys (rows.map formKey)).flatMap (keyContribution student rows)

/-- `DataCleaner._process_data` (the record-building part): group by
student (skipping the empty student id), then by form key. -/
def process_data (rows : List RawRow) : List Record :=
  (sortedKeys (rows.map (·.student))).flatMap fun st =>
    if st = "" then []
    else processStudentRows st (rows.filter (·.student == st))

/-! ## `data_helpers.clean_cell_value` and Python numeric coercion -/

/-- The result of `clean_cell_value`: Python `None`, an `int`, or a string. -/
inductive CleanCell where
  | int (n : Int)
  | str (s : String)
deriving DecidableEq

/-- A decimal digit run as a natural number, with its length. -/
def digitsVal (l : List Char) : Nat := l.foldl (fun acc c => acc * 10 + digVal c) 0

/-- The syntactic pieces of a decimal float literal: negative sign,
integer-part value, fraction-part value, fraction length, exponent. -/
structure FloatParts where
  neg : Bool
  ip : Nat
  fv : Nat
  flen : Nat
  ex : Int
deriving DecidableEq

/-- Parse a decimal float literal into its pieces: optional surrounding
whitespace, optional sign, digits with an optional fractional part (at
least one digit overall), optional decimal exponent. -/
def pyFloatParts (s : String) : Option FloatParts :=
  let t := stripWs s.data
  let neg := t.head? = some '-'
  let t1 : List Char :=
    match t with
    | '+' :: rest => rest
    | '-' :: rest => rest
    | l => l
  let intPart := t1.takeWhile Char.isDigit
  let t2 := t1.drop intPart.length
  let fracPart : List Char :=
    match t2 with
    | '.' :: rest => rest.takeWhile Char.isDigit
    | _ => []
  let t3 : List Char :=
    match t2 with
    | '.' :: rest => rest.drop fracPart.length
    | l => l
  if intPart.isEmpty && fracPart.isEmpty then none
  else
    match t3 with
    | [] => some ⟨neg, digitsVal intPart, digitsVal fracPart, fracPart.length, 0⟩
    | e :: rest =>
      if e = 'e' || e = 'E' then
        let eneg := rest.head? = some '-'
        let r1 : List Char :=
          match rest with
          | '+' :: r => r
          | '-' :: r => r
          | l => l
        let edigits := r1.takeWhile Char.isDigit
        if edigits.isEmpty || !(r1.drop edigits.length).isEmpty then none
        else
          some ⟨neg, digitsVal intPart, digitsVal fracPart, fracPart.length,
            if eneg then -(digitsVal edigits : Int) else (digitsVal edigits : Int)⟩
      else none

/-- The rational value of the parsed pieces. -/
def floatPartsVal (p : FloatParts) : ℚ :=
  (if p.neg then -1 else 1) * ((p.ip : ℚ) + (p.fv : ℚ) / (10 : ℚ) ^ p.flen) * (10 : ℚ) ^ p.ex

/-- Python `float(str)` restricted to finite decimal literals.  This
covers every numeric cell this pipeline can feed it; `inf`, `nan` and hex
floats are outside the model, and the exact rational value stands in for
the nearest binary double. -/
def pyFloatOfString (s : String) : Option ℚ :=
  (pyFloatParts s).map floatPartsVal

/-- Python `int(float)`: truncation toward zero. -/
def pyTruncToInt (q : ℚ) : Int := if q < 0 then -⌊-q⌋ else ⌊q⌋

/-- Is the column an `epa<N>` rating column (`re.match(r'^epa\d+$', ·)`)? -/
def isEpaCol (c : String) : Bool :=
  match c.data with
  | 'e' :: 'p' :: 'a' :: rest => !rest.isEmpty && rest.all Char.isDigit
  | _ => false

/-- The null-ish cell markers recognized by `clean_cell_value`. -/
def nullMarkers : List String := ["none", "null", "na", "n/a", "#name?"]

/-- The date formats tried by the `release_date` branch of
`clean_cell_value`, in source order. -/
def cellDateFormats : List (List Directive) := [fmtMdy2, fmtMdY4, fmtYmdDash, fmtDmY4]

/-- `strftime('%Y-%m-%d')`. -/
def isoDateStr (d : PyDate) : String :=
  pad4 d.year ++ "-" ++ pad2 d.month ++ "-" ++ pad2 d.day

/-- `data_helpers.clean_cell_value`: empty and null-marker cells become
`None`; rating columns (`epa<N>`, `prof_*`, `comm_*`) are coerced with
`int(float(value))`, failures becoming `None`; `release_date` cells are
normalized to ISO when one of four formats matches, and kept verbatim
otherwise; every other column keeps the string. -/
def clean_cell_value (value : String) (col_name : String) : Option CleanCell :=
  if value = "" || (lowerStr value) ∈ nullMarkers then none
  else if isEpaCol col_name || "prof_".data.isPrefixOf col_name.data ||
      "comm_".data.isPrefixOf col_name.data then
    match pyFloatOfString value with
    | some q => some (.int (pyTruncToInt q))
    | none => none
  else if col_name = "release_date" then
    match (cellDateFormats.filterMap fun fmt => strptime fmt value).head? with
    | some d => some (.str (isoDateStr d))
    | none => some (.str value)
  else some (.str value)

/-! ## Helper lemmas -/

/-- An `orElse` chain succeeds through its first or its second arm. -/
theorem orElse_eq_some {α : Type} {a : Option α} {b : Unit → Option α} {v : α}
    (h : a.orElse b = some v) : a = some v ∨ b () = some v := by
  cases a with
  | none => exact Or.inr h
  | some x => exact Or.inl h

/-- A month has at most 31 days. -/
theorem daysInMonth_le_31 (y m : Nat) : daysInMonth y m ≤ 31 := by
  rw [daysInMonth]
  split_ifs <;> omega

/-- Everything `buildDate` returns is a valid calendar date. -/
theorem buildDate_valid {acc : StAcc} {d : PyDate} (h : buildDate acc = some d) :
    1 ≤ d.year ∧ 1 ≤ d.month ∧ d.month ≤ 12 ∧ 1 ≤ d.day ∧ d.day ≤ 31 := by
  rw [buildDate] at h
  split_ifs at h with hc
  cases h
  simp only [Bool.and_eq_true, decide_eq_true_eq] at hc
  obtain ⟨⟨⟨⟨⟨h1, _⟩, h3⟩, h4⟩, h5⟩, h6⟩ := hc
  exact ⟨h1, h3, h4, h5, le_trans h6 (daysInMonth_le_31 _ _)⟩

/-- Everything `strptime` returns is a valid calendar date. -/
theorem strptime_valid {fmt : List Directive} {s : String} {d : PyDate}
    (h : strptime fmt s = some d) :
    1 ≤ d.year ∧ 1 ≤ d.month ∧ d.month ≤ 12 ∧ 1 ≤ d.day ∧ d.day ≤ 31 := by
  rw [strptime] at h
  rcases Option.bind_eq_some.mp h with ⟨pr, _, hf⟩
  split_ifs at hf
  exact buildDate_valid hf

/-- Everything `parse_date` returns is a valid calendar date. -/
theorem parse_date_valid {s : String} {d : PyDate} (h : parse_date s = some d) :
    1 ≤ d.year ∧ 1 ≤ d.month ∧ d.month ≤ 12 ∧ 1 ≤ d.day ∧ d.day ≤ 31 := by
  rw [parse_date] at h
  split_ifs at h with h0
  rcases orElse_eq_some h with h | h
  · exact strptime_valid h
  rcases orElse_eq_some h with h | h
  · exact strptime_valid h
  rcases orElse_eq_some h with h | h
  · exact strptime_valid h
  rcases orElse_eq_some h with h | h
  · exact strptime_valid h
  · exact strptime_valid h

/-- A parse failure or a missing value always gives the fallback weight. -/
theorem recency_fallback (now : NowDate) (s : String) (h : parse_date s = none) :
    calculate_recency_weight now s = 1/2 := by
  rw [calculate_recency_weight]
  split_ifs with h0
  · rfl
  · rw [h]

/-- A parse success always gives the month-difference weight. -/
theorem recency_parsed (now : NowDate) (s : String) (d : PyDate)
    (h : parse_date s = some d) :
    calculate_recency_weight now s = weightFromMonths (monthsDifference now d) := by
  rw [calculate_recency_weight]
  split_ifs with h0
  · rw [h0] at h
    rw [show parse_date "" = none from rfl] at h
    cases h
  · rw [h]

/-- The month-difference weight never exceeds 1. -/
theorem weightFromMonths_le_one (m : ℤ) : weightFromMonths m ≤ 1 := by
  rw [weightFromMonths]
  split_ifs with h1 h2
  · exact le_refl 1
  · norm_num
  · have h3 : (3 : ℚ) < (m : ℚ) := by exact_mod_cast (by omega : (3:ℤ) < m)
    have h0 : (0 : ℚ) ≤ ((m : ℚ) - 3) / 6 := by
      apply div_nonneg _ (by norm_num)
      linarith
    linarith

/-- The month-difference weight is never negative. -/
theorem weightFromMonths_nonneg (m : ℤ) : 0 ≤ weightFromMonths m := by
  rw [weightFromMonths]
  split_ifs with h1 h2
  · norm_num
  · exact le_refl 0
  · have hm9 : (m : ℚ) < 9 := by exact_mod_cast (by omega : m < (9:ℤ))
    have hle : ((m : ℚ) - 3) / 6 ≤ 1 := by
      rw [div_le_one (by norm_num : (0:ℚ) < 6)]
      linarith
    linarith

/-- The month-difference weight is antitone in the month difference. -/
theorem weightFromMonths_antitone {m m' : ℤ} (h : m ≤ m') :
    weightFromMonths m' ≤ weightFromMonths m := by
  by_cases h1 : m ≤ 3
  · rw [show weightFromMonths m = 1 from by rw [weightFromMonths, if_pos h1]]
    exact weightFromMonths_le_one m'
  · by_cases h2 : 9 ≤ m'
    · rw [show weightFromMonths m' = 0 from by
        rw [weightFromMonths, if_neg (by omega), if_pos h2]]
      exact weightFromMonths_nonneg m
    · rw [weightFromMonths, weightFromMonths, if_neg h1, if_neg (by omega),
        if_neg (by omega), if_neg (by omega)]
      have hc : (m : ℚ) ≤ (m' : ℚ) := by exact_mod_cast h
      linarith

/-! ## Claim theorems -/

/-- Claim C3: for every date that parses, the recency weight function
computes the month difference `(now.year - date.year) * 12 +
(now.month - date.month)` — ignoring the day of month — and maps it to
1.0 at three months or less, 0.0 at nine months or more and the linear
interpolation `1 - (months - 3)/6` in between; the weight at exactly 3
months is 1.0, at 9 months 0.0, at 6 months 0.5, and for two parseable
dates with the older first (both at most nine months old) the older
date's weight never exceeds the newer one's. -/
theorem C3_recency_weight :
    (∀ (now : NowDate) (s : String) (d : PyDate), parse_date s = some d →
      calculate_recency_weight now s = weightFromMonths (monthsDifference now d)) ∧
    (∀ (now : NowDate) (d d' : PyDate), d.year = d'.year → d.month = d'.month →
      monthsDifference now d = monthsDifference now d') ∧
    weightFromMonths 3 = 1 ∧ weightFromMonths 9 = 0 ∧ weightFromMonths 6 = 1/2 ∧
    (∀ (m : ℤ), m ≤ 3 → weightFromMonths m = 1) ∧
    (∀ (m : ℤ), 9 ≤ m → weightFromMonths m = 0) ∧
    (∀ (m : ℤ), 3 < m → m < 9 → weightFromMonths m = 1 - ((m : ℚ) - 3) / 6) ∧
    (∀ (now : NowDate) (s1 s2 : String) (d1 d2 : PyDate),
      parse_date s1 = some d1 → parse_date s2 = some d2 → d1.key < d2.key →
      monthsDifference now d1 ≤ 9 → monthsDifference now d2 ≤ 9 →
      calculate_recency_weight now s1 ≤ calculate_recency_weight now s2) := by
  refine ⟨recency_parsed, ?_, ?_, ?_, ?_, ?_, ?_, ?_, ?_⟩
  · intro now d d' hy hm
    rw [monthsDifference, monthsDifference, hy, hm]
  · rw [weightFromMonths]; norm_num
  · rw [weightFromMonths]; norm_num
  · rw [weightFromMonths]; norm_num
  · intro m hm
    rw [weightFromMonths, if_pos hm]
  · intro m hm
    rw [weightFromMonths, if_neg (by omega), if_pos hm]
  · intro m hm3 hm9
    rw [weightFromMonths, if_neg (by omega), if_neg (by omega)]
  · intro now s1 s2 d1 d2 h1 h2 hkey _ _
    rw [recency_parsed now s1 d1 h1, recency_parsed now s2 d2 h2]
    apply weightFromMonths_antitone
    obtain ⟨_, hm1lo, hm1hi, hd1lo, hd1hi⟩ := parse_date_valid h1
    obtain ⟨_, hm2lo, hm2hi, hd2lo, hd2hi⟩ := parse_date_valid h2
    rw [PyDate.key, PyDate.key] at hkey
    rw [monthsDifference, monthsDifference]
    have hlex : d1.year < d2.year ∨ (d1.year = d2.year ∧ d1.month ≤ d2.month) := by
      omega
    rcases hlex with hy | ⟨hy, hm⟩
    · have : (d1.year : ℤ) < (d2.year : ℤ) := by exact_mod_cast hy
      have hm1 : (1 : ℤ) ≤ (d1.month : ℤ) := by exact_mod_cast hm1lo
      have hm1b : (d1.month : ℤ) ≤ 12 := by exact_mod_cast hm1hi
      have hm2 : (1 : ℤ) ≤ (d2.month : ℤ) := by exact_mod_cast hm2lo
      have hm2b : (d2.month : ℤ) ≤ 12 := by exact_mod_cast hm2hi
      linarith
    · have hyz : (d1.year : ℤ) = (d2.year : ℤ) := by exact_mod_cast hy
      have hmz : (d1.month : ℤ) ≤ (d2.month : ℤ) := by exact_mod_cast hm
      linarith

/-- Claim C3 witness: the recency weight of 2025-01-15 (nine months before
an October 2025 now) does not exceed the weight of 2025-06-01. -/
theorem C3_recency_weight_witness :
    calculate_recency_weight ⟨2025, 10⟩ "2025-01-15" ≤
      calculate_recency_weight ⟨2025, 10⟩ "2025-06-01" := by
  apply C3_recency_weight.2.2.2.2.2.2.2.2 ⟨2025, 10⟩ "2025-01-15" "2025-06-01"
    ⟨2025, 1, 15⟩ ⟨2025, 6, 1⟩ (by decide) (by decide) (by decide)
  · rw [monthsDifference]; norm_num
  · rw [monthsDifference]; norm_num

/-- Claim C6 counterexample: the claimed fifth accepted format `YYYY/M/D`
is not accepted by `parse_date` — `"2023/03/02"` does not parse and
therefore receives the fixed fallback weight 0.5, not the computed weight
(which would be 0.0 for a date that far in the past). -/
theorem C6_counterexample :
    parse_date "2023/03/02" = none ∧
    calculate_recency_weight ⟨2025, 10⟩ "2023/03/02" = 1/2 ∧
    weightFromMonths (monthsDifference ⟨2025, 10⟩ ⟨2023, 3, 2⟩) = 0 := by
  refine ⟨by decide, ?_, ?_⟩
  · exact recency_fallback _ _ (by decide)
  · rw [show monthsDifference ⟨2025, 10⟩ ⟨2023, 3, 2⟩ = 31 from by
      rw [monthsDifference]; norm_num]
    rw [weightFromMonths, if_neg (by omega), if_pos (by omega)]

/-- Claim C6 (amended): `parse_date` tries ISO `YYYY-MM-DD` first, then
`M/D/YY`, `M/D/YYYY`, `D/M/YYYY`, and finally `Month D, YYYY` — not
`YYYY/M/D`, which is unparseable and falls back to weight 0.5; every
missing or unparseable date receives exactly the fallback weight 0.5 and
no error is possible (the function is total). -/
theorem C6_recency_formats :
    (∀ (now : NowDate) (s : String), parse_date s = none →
      calculate_recency_weight now s = 1/2) ∧
    (∀ (now : NowDate), calculate_recency_weight now "" = 1/2) ∧
    parse_date "2023-03-02" = some ⟨2023, 3, 2⟩ ∧
    parse_date "3/2/23" = some ⟨2023, 3, 2⟩ ∧
    parse_date "03/04/2023" = some ⟨2023, 3, 4⟩ ∧
    parse_date "13/04/2023" = some ⟨2023, 4, 13⟩ ∧
    parse_date "March 2, 2023" = some ⟨2023, 3, 2⟩ ∧
    parse_date "2023/03/02" = none := by
  refine ⟨fun now s h => recency_fallback now s h, fun now => ?_,
    by decide, by decide, by decide, by decide, by decide, by decide⟩
  exact recency_fallback now "" (by decide)

/-- Claim C6 witness: an unparseable date string gets exactly the
fallback weight. -/
theorem C6_recency_formats_witness :
    calculate_recency_weight ⟨2025, 10⟩ "not a date" = 1/2 :=
  C6_recency_formats.1 ⟨2025, 10⟩ "not a date" (by decide)

/-- Claim C10: on the numeric rating columns (`epa<N>`, `prof_*`,
`comm_*`) `clean_cell_value` coerces through `int(float(value))`, so the
fractional rating string `"3.5"` becomes the truncated integer 3, while
the segmenter's own coercion `_safe_int` returns null on the same string
(`int("3.5")` raises); the two rating-coercion paths disagree on
fractional inputs. -/
theorem C10_rating_coercion_divergence :
    clean_cell_value "3.5" "epa1" = some (.int 3) ∧
    clean_cell_value "3.5" "prof_x" = some (.int 3) ∧
    safe_int "3.5" = none ∧
    isEpaCol "epa1" = true ∧
    (safe_int "3.5").map CleanCell.int ≠ clean_cell_value "3.5" "epa1" := by
  have hfloat : pyFloatOfString "3.5" = some (floatPartsVal ⟨false, 3, 5, 1, 0⟩) := by
    rw [pyFloatOfString, show pyFloatParts "3.5" = some ⟨false, 3, 5, 1, 0⟩ from by decide]
    rfl
  have hval : floatPartsVal ⟨false, 3, 5, 1, 0⟩ = 7/2 := by
    rw [floatPartsVal]; norm_num
  have htrunc : pyTruncToInt (7/2) = 3 := by
    rw [pyTruncToInt, if_neg (by norm_num)]
    norm_num [Int.floor_eq_iff]
  have hepa : clean_cell_value "3.5" "epa1" = some (.int 3) := by
    rw [clean_cell_value, if_neg (by decide), if_pos (by decide), hfloat]
    show some (CleanCell.int (pyTruncToInt (floatPartsVal ⟨false, 3, 5, 1, 0⟩))) = _
    rw [hval, htrunc]
  have hprof : clean_cell_value "3.5" "prof_x" = some (.int 3) := by
    rw [clean_cell_value, if_neg (by decide), if_pos (by decide), hfloat]
    show some (CleanCell.int (pyTruncToInt (floatPartsVal ⟨false, 3, 5, 1, 0⟩))) = _
    rw [hval, htrunc]
  refine ⟨hepa, hprof, by decide, by decide, ?_⟩
  rw [hepa, show safe_int "3.5" = none from by decide]
  simp

/-- The concrete temporal data refuting claim C5: two dated evaluations
whose half-to-half reasoning-EPA change is exactly +0.3. -/
def tdataC5 : List TempEval := [⟨[("epa1", 3)]⟩, ⟨[("epa1", 33/10)]⟩]

/-- Claim C5 counterexample: on a half-to-half change of exactly +0.3 the
temporal progression analyzer reports "stable" (its test is strictly
`> 0.3`), while the trend classifier reports "improving" (its stable test
is strictly `< 0.3`) — the two thresholds are not the same. -/
theorem C5_counterexample :
    (epaProgression tdataC5).2 = 3/10 ∧
    (epaProgression tdataC5).1 = "stable" ∧
    trendDirection (3/10) = "improving" ∧
    progressionDirection (3/10) ≠ trendDirection (3/10) := by
  have htake : tdataC5.take (tdataC5.length / 2) = [⟨[("epa1", 3)]⟩] := rfl
  have hdrop : tdataC5.drop (tdataC5.length / 2) = [⟨[("epa1", 33/10)]⟩] := rfl
  have hm1 : evalReasoningMean ⟨[("epa1", (3 : ℚ))]⟩ = some ((3 + 0) / 1) := rfl
  have hm2 : evalReasoningMean ⟨[("epa1", (33/10 : ℚ))]⟩ = some ((33/10 + 0) / 1) := rfl
  have hchange : (epaProgression tdataC5).2 = 3/10 := by
    rw [epaProgression, htake, hdrop]
    rw [show ([⟨[("epa1", (3 : ℚ))]⟩] : List TempEval).filterMap evalReasoningMean
        = [(3 + 0) / 1] from by rw [List.filterMap, hm1]; rfl]
    rw [show ([⟨[("epa1", (33/10 : ℚ))]⟩] : List TempEval).filterMap evalReasoningMean
        = [(33/10 + 0) / 1] from by rw [List.filterMap, hm2]; rfl]
    rw [if_neg (by decide)]
    simp only [listAvg]
    norm_num
  have hdir : progressionDirection (3/10) = "stable" := by
    rw [progressionDirection, if_neg (by norm_num), if_neg (by norm_num)]
  have htrend : trendDirection (3/10) = "improving" := by
    rw [trendDirection, if_neg (by rw [abs_of_nonneg (by norm_num : (0:ℚ) ≤ 3/10)]; norm_num),
      if_pos (by norm_num)]
  refine ⟨hchange, ?_, htrend, ?_⟩
  · have : (epaProgression tdataC5).1 = progressionDirection (epaProgression tdataC5).2 := by
      rw [epaProgression, htake, hdrop]
      rw [show ([⟨[("epa1", (3 : ℚ))]⟩] : List TempEval).filterMap evalReasoningMean
          = [(3 + 0) / 1] from by rw [List.filterMap, hm1]; rfl]
      rw [show ([⟨[("epa1", (33/10 : ℚ))]⟩] : List TempEval).filterMap evalReasoningMean
          = [(33/10 + 0) / 1] from by rw [List.filterMap, hm2]; rfl]
      rw [if_neg (by decide)]
    rw [this, hchange, hdir]
  · rw [hdir, htrend]
    decide

/-- Claim C5 (amended): the temporal progression analyzer and the trend
classifier agree on the direction of every change whose absolute value is
not exactly 0.3; at a change of exactly ±0.3 the analyzer reports
"stable" while the classifier reports "improving" (resp. "declining").
In particular the direction the analyzer attaches to its computed change
is the classifier direction whenever that change is not ±0.3. -/
theorem C5_direction_threshold :
    (∀ c : ℚ, |c| ≠ 3/10 → progressionDirection c = trendDirection c) ∧
    progressionDirection (3/10) = "stable" ∧
    progressionDirection (-(3/10)) = "stable" ∧
    trendDirection (3/10) = "improving" ∧
    trendDirection (-(3/10)) = "declining" ∧
    (∀ tdata : List TempEval, |(epaProgression tdata).2| ≠ 3/10 →
      (epaProgression tdata).1 = trendDirection (epaProgression tdata).2) := by
  have hmain : ∀ c : ℚ, |c| ≠ 3/10 → progressionDirection c = trendDirection c := by
    intro c hne
    by_cases hpos : c > 3/10
    · rw [progressionDirection, if_pos hpos, trendDirection,
        if_neg (by rw [abs_of_pos (by linarith : (0:ℚ) < c)]; linarith),
        if_pos (by linarith)]
    · by_cases hneg : c < -(3/10)
      · rw [progressionDirection, if_neg hpos, if_pos hneg, trendDirection,
          if_neg (by rw [abs_of_neg (by linarith : c < 0)]; linarith),
          if_neg (by linarith)]
      · have habs : |c| < 3/10 :=
          lt_of_le_of_ne (abs_le.mpr ⟨le_of_not_lt hneg, le_of_not_lt hpos⟩) hne
        rw [progressionDirection, if_neg hpos, if_neg hneg, trendDirection, if_pos habs]
  have hprog : ∀ tdata : List TempEval, (epaProgression tdata).1
      = progressionDirection (epaProgression tdata).2 := by
    intro tdata
    rw [epaProgression]
    split_ifs with h
    · simp only
      rw [progressionDirection, if_neg (by norm_num), if_neg (by norm_num)]
    · simp only
  refine ⟨hmain, ?_, ?_, ?_, ?_, ?_⟩
  · rw [progressionDirection, if_neg (by norm_num), if_neg (by norm_num)]
  · rw [progressionDirection, if_neg (by norm_num), if_neg (by norm_num)]
  · rw [trendDirection, if_neg (by rw [abs_of_nonneg (by norm_num : (0:ℚ) ≤ 3/10)]; norm_num),
      if_pos (by norm_num)]
  · rw [trendDirection, if_neg (by rw [abs_of_nonpos (by norm_num : -(3/10 : ℚ) ≤ 0)]; norm_num),
      if_neg (by norm_num)]
  · intro tdata hne
    rw [hprog tdata, hmain _ hne]

/-- Claim C5 witness: away from the boundary the two direction rules
agree, for example at a change of one half. -/
theorem C5_direction_threshold_witness :
    progressionDirection (1/2) = trendDirection (1/2) :=
  C5_direction_threshold.1 (1/2) (by rw [abs_of_nonneg (by norm_num : (0:ℚ) ≤ 1/2)]; norm_num)

/-! ### Pattern-confidence lemmas -/

/-- `pyRound` fixes every rational that is already exact at `n` digits. -/
theorem pyRound_int_div (n : Nat) (z : ℤ) :
    pyRound n ((z : ℚ) / 10 ^ n) = (z : ℚ) / 10 ^ n := by
  have h10 : ((10:ℚ) ^ n) ≠ 0 := by positivity
  simp only [pyRound]
  rw [div_mul_cancel₀ _ h10, Int.floor_intCast]
  norm_num

/-- `pyRound` of a nonnegative value is nonnegative. -/
theorem pyRound_nonneg {n : Nat} {q : ℚ} (h : 0 ≤ q) : 0 ≤ pyRound n q := by
  simp only [pyRound]
  have hm : (0:ℚ) < 10 ^ n := by positivity
  have hx : (0:ℚ) ≤ q * 10 ^ n := by positivity
  have hf : (0:ℤ) ≤ ⌊q * 10 ^ n⌋ := Int.floor_nonneg.mpr hx
  have hv : (0:ℤ) ≤ (if q * 10 ^ n - (⌊q * 10 ^ n⌋ : ℚ) < 1/2 then ⌊q * 10 ^ n⌋
      else if 1/2 < q * 10 ^ n - (⌊q * 10 ^ n⌋ : ℚ) then ⌊q * 10 ^ n⌋ + 1
      else if ⌊q * 10 ^ n⌋ % 2 = 0 then ⌊q * 10 ^ n⌋ else ⌊q * 10 ^ n⌋ + 1) := by
    split_ifs <;> omega
  apply div_nonneg _ (le_of_lt hm)
  exact_mod_cast hv

/-- `pyRound` of a value at most 1 is at most 1. -/
theorem pyRound_le_one {n : Nat} {q : ℚ} (h : q ≤ 1) : pyRound n q ≤ 1 := by
  simp only [pyRound]
  have hm : (0:ℚ) < 10 ^ n := by positivity
  have hx : q * 10 ^ n ≤ 10 ^ n := by
    calc q * 10 ^ n ≤ 1 * 10 ^ n := by
          exact mul_le_mul_of_nonneg_right h (le_of_lt hm)
      _ = 10 ^ n := one_mul _
  have hfle : ⌊q * 10 ^ n⌋ ≤ (10 : ℤ) ^ n := by
    have h1 : ⌊q * (10:ℚ) ^ n⌋ ≤ ⌊(((10:ℤ) ^ n : ℤ) : ℚ)⌋ :=
      Int.floor_le_floor (by push_cast; linarith)
    rw [Int.floor_intCast] at h1
    exact h1
  have hv : (if q * 10 ^ n - (⌊q * 10 ^ n⌋ : ℚ) < 1/2 then ⌊q * 10 ^ n⌋
      else if 1/2 < q * 10 ^ n - (⌊q * 10 ^ n⌋ : ℚ) then ⌊q * 10 ^ n⌋ + 1
      else if ⌊q * 10 ^ n⌋ % 2 = 0 then ⌊q * 10 ^ n⌋ else ⌊q * 10 ^ n⌋ + 1)
      ≤ (10 : ℤ) ^ n := by
    split_ifs with h1 h2 h3
    · exact hfle
    · have hle : (⌊q * 10 ^ n⌋ : ℚ) ≤ q * 10 ^ n - 1/2 := by linarith
      have : (⌊q * 10 ^ n⌋ : ℚ) < (10:ℚ) ^ n := by linarith
      have hstrict : ⌊q * 10 ^ n⌋ < (10 : ℤ) ^ n := by exact_mod_cast (by push_cast at this ⊢; linarith : (⌊q * 10 ^ n⌋ : ℚ) < ((10:ℤ) ^ n : ℚ))
      omega
    · exact hfle
    · have hne : (⌊q * 10 ^ n⌋ : ℚ) = q * 10 ^ n - 1/2 := by linarith
      have : (⌊q * 10 ^ n⌋ : ℚ) < (10:ℚ) ^ n := by linarith
      have hstrict : ⌊q * 10 ^ n⌋ < (10 : ℤ) ^ n := by exact_mod_cast (by push_cast at this ⊢; linarith : (⌊q * 10 ^ n⌋ : ℚ) < ((10:ℤ) ^ n : ℚ))
      omega
  rw [div_le_one hm]
  calc ((if q * 10 ^ n - (⌊q * 10 ^ n⌋ : ℚ) < 1/2 then ⌊q * 10 ^ n⌋
      else if 1/2 < q * 10 ^ n - (⌊q * 10 ^ n⌋ : ℚ) then ⌊q * 10 ^ n⌋ + 1
      else if ⌊q * 10 ^ n⌋ % 2 = 0 then ⌊q * 10 ^ n⌋ else ⌊q * 10 ^ n⌋ + 1 : ℤ) : ℚ)
      ≤ (((10:ℤ) ^ n : ℤ) : ℚ) := by exact_mod_cast hv
    _ = (10:ℚ) ^ n := by push_cast; ring

/-- The rotation factor is at least 1. -/
theorem rotationMultiplier_ge_one (ev : List Evidence) : 1 ≤ rotationMultiplier ev := by
  rw [rotationMultiplier]
  split_ifs <;> norm_num

/-- The temporal factor is at least 1. -/
theorem temporalMultiplier_ge_one (ev : List Evidence) : 1 ≤ temporalMultiplier ev := by
  simp only [temporalMultiplier]
  split_ifs <;> norm_num

/-- The role factor is at least 1. -/
theorem roleMultiplier_ge_one (ev : List Evidence) : 1 ≤ roleMultiplier ev := by
  rw [roleMultiplier]
  split_ifs <;> norm_num

/-- The combined multiplier is at least 1. -/
theorem confMultiplier_ge_one (ev : List Evidence) : 1 ≤ confMultiplier ev := by
  rw [confMultiplier]
  have h1 := rotationMultiplier_ge_one ev
  have h2 := temporalMultiplier_ge_one ev
  have h3 := roleMultiplier_ge_one ev
  have h12 : (1:ℚ) ≤ rotationMultiplier ev * temporalMultiplier ev := by nlinarith
  nlinarith

/-- The base score is nonnegative. -/
theorem baseScore_nonneg (n : Nat) : 0 ≤ baseScore n := by
  rw [baseScore]
  split_ifs <;> norm_num

/-- The base score is at most 1. -/
theorem baseScore_le_one (n : Nat) : baseScore n ≤ 1 := by
  rw [baseScore]
  split_ifs <;> norm_num

/-- The score of a nonempty evidence set is the rounded capped product. -/
theorem conf_score_formula (ev : List Evidence) (h : ¬ ev = []) :
    (calculate_pattern_confidence ev).score
      = pyRound 3 (min 1 (baseScore ev.length * confMultiplier ev)) := by
  rw [calculate_pattern_confidence, if_neg (by simpa using h)]

/-- One evidence item yields at most one distinct rotation. -/
theorem uniqueRotations_single (e : Evidence) : (uniqueRotations [e]).length ≤ 1 := by
  simp only [uniqueRotations]
  refine le_trans (List.Sublist.length_le (List.dedup_sublist _)) ?_
  refine le_trans (List.length_filter_le _ _) ?_
  rw [List.length_map]
  refine le_trans (List.length_filter_le _ _) ?_
  simp

/-- One evidence item yields at most one distinct date. -/
theorem uniqueDates_single (e : Evidence) : (uniqueDates [e]).length ≤ 1 := by
  simp only [uniqueDates]
  refine le_trans (List.Sublist.length_le (List.dedup_sublist _)) ?_
  refine le_trans (List.length_filter_le _ _) ?_
  simp

/-- One evidence item never gets the cross-rotation boost. -/
theorem rotationMultiplier_single (e : Evidence) : rotationMultiplier [e] = 1 := by
  have h := uniqueRotations_single e
  simp only [rotationMultiplier]
  rw [if_neg (by omega), if_neg (by omega)]

/-- One evidence item never gets the temporal boost. -/
theorem temporalMultiplier_single (e : Evidence) : temporalMultiplier [e] = 1 := by
  have h := uniqueDates_single e
  simp only [temporalMultiplier]
  rw [if_neg (by omega)]

/-- The collected roles of one evidence item. -/
theorem uniqueRoles_single (e : Evidence) :
    uniqueRoles [e] = [] ∨ uniqueRoles [e] = [lowerStr e.evaluator_role] := by
  simp only [uniqueRoles, List.map_cons, List.map_nil]
  by_cases h : e.evaluator_role = "Unknown"
  · left
    simp [List.filter_cons, h]
  · right
    simp [List.filter_cons, h, List.dedup_cons_of_not_mem]

/-- One evidence item whose role does not mention both residents and
attendings gets no role-diversity boost. -/
theorem roleMultiplier_single (e : Evidence)
    (h : ¬(strHas (lowerStr e.evaluator_role) "resident" = true ∧
        strHas (lowerStr e.evaluator_role) "attending" = true)) :
    roleMultiplier [e] = 1 := by
  rcases uniqueRoles_single e with hu | hu
  · simp [roleMultiplier, hasResident, hasAttending, hu]
  · simp only [roleMultiplier, hasResident, hasAttending, hu, List.any_cons, List.any_nil,
      Bool.or_false]
    rw [if_neg]
    intro hc
    rw [Bool.and_eq_true] at hc
    exact h hc

/-- Claim C2 counterexample: the spec says a single-evidence,
single-rotation, single-role pattern always scores exactly 0.1, but a
single role string mentioning both residents and attendings triggers the
role-diversity boost and the score becomes 0.11. -/
theorem C2_counterexample :
    (calculate_pattern_confidence [⟨"Medicine", "2023-01-01", "Resident and Attending"⟩]).score
      = 11/100 ∧ (11/100 : ℚ) ≠ 1/10 := by
  refine ⟨?_, by norm_num⟩
  rw [conf_score_formula _ (by decide)]
  rw [show baseScore ([⟨"Medicine", "2023-01-01", "Resident and Attending"⟩] :
      List Evidence).length = 1/10 from by norm_num [baseScore]]
  rw [show confMultiplier [⟨"Medicine", "2023-01-01", "Resident and Attending"⟩] = 11/10 from by
    rw [confMultiplier, rotationMultiplier_single, temporalMultiplier_single]
    rw [show roleMultiplier [⟨"Medicine", "2023-01-01", "Resident and Attending"⟩] = 11/10 from by
      rw [roleMultiplier, if_pos (by decide)]]
    norm_num]
  rw [show min 1 ((1:ℚ)/10 * (11/10)) = 11/100 from by
    rw [min_eq_right (by norm_num)]
    norm_num]
  have h := pyRound_int_div 3 110
  norm_num at h
  exact h

/-- Claim C2 (amended): the pattern confidence score always lies in
[0, 1] and equals `min(1.0, base_score * multiplier)` rounded to three
decimals; the base score is 1.0 for 4 or more items, 0.7 for 3, 0.4 for
2, 0.1 for 1, and zero evidence short-circuits with score 0.0, level
"low" and description "No supporting evidence"; any evidence set with at
least 4 items (in particular 4 evaluators over 3 rotations, a 30-day
span and both roles) scores exactly 1.0; and a single-evidence pattern
scores exactly 0.1 provided its single role string does not contain both
"resident" and "attending" (otherwise the role-diversity boost applies
and it scores 0.11). -/
theorem C2_confidence_score :
    (∀ ev : List Evidence, 0 ≤ (calculate_pattern_confidence ev).score ∧
      (calculate_pattern_confidence ev).score ≤ 1) ∧
    (∀ ev : List Evidence, ev ≠ [] → (calculate_pattern_confidence ev).score
      = pyRound 3 (min 1 (baseScore ev.length * confMultiplier ev))) ∧
    calculate_pattern_confidence [] = ⟨"low", 0, "No supporting evidence"⟩ ∧
    (∀ n : Nat, 4 ≤ n → baseScore n = 1) ∧
    baseScore 3 = 7/10 ∧ baseScore 2 = 2/5 ∧ baseScore 1 = 1/10 ∧
    (∀ ev : List Evidence, 4 ≤ ev.length → (calculate_pattern_confidence ev).score = 1) ∧
    (∀ e : Evidence, ¬(strHas (lowerStr e.evaluator_role) "resident" = true ∧
        strHas (lowerStr e.evaluator_role) "attending" = true) →
      (calculate_pattern_confidence [e]).score = 1/10) := by
  have hone : pyRound 3 1 = 1 := by
    have h := pyRound_int_div 3 1000
    norm_num at h
    exact h
  have htenth : pyRound 3 (1/10) = 1/10 := by
    have h := pyRound_int_div 3 100
    norm_num at h
    exact h
  refine ⟨?_, fun ev h => conf_score_formula ev h, rfl, ?_, ?_, ?_, ?_, ?_, ?_⟩
  · intro ev
    by_cases h : ev = []
    · rw [h]
      constructor <;> norm_num [calculate_pattern_confidence]
    · rw [conf_score_formula ev h]
      have hmul : 0 ≤ baseScore ev.length * confMultiplier ev :=
        mul_nonneg (baseScore_nonneg _) (le_trans zero_le_one (confMultiplier_ge_one ev))
      exact ⟨pyRound_nonneg (le_min zero_le_one hmul), pyRound_le_one (min_le_left _ _)⟩
  · intro n hn
    rw [baseScore, if_pos hn]
  · norm_num [baseScore]
  · norm_num [baseScore]
  · norm_num [baseScore]
  · intro ev hlen
    rw [conf_score_formula ev (by intro h; rw [h] at hlen; simp at hlen)]
    rw [baseScore, if_pos hlen, one_mul, min_eq_left (confMultiplier_ge_one ev), hone]
  · intro e h
    rw [conf_score_formula [e] (by simp)]
    rw [show ([e] : List Evidence).length = 1 from rfl]
    rw [show baseScore 1 = 1/10 from by norm_num [baseScore]]
    rw [confMultiplier, rotationMultiplier_single, temporalMultiplier_single,
      roleMultiplier_single e h]
    rw [show (1:ℚ)/10 * (1 * 1 * 1) = 1/10 from by norm_num]
    rw [min_eq_right (by norm_num), htenth]

/-- Claim C2 witness: one evidence item with the ordinary single role
"Attending" scores exactly 0.1. -/
theorem C2_confidence_score_witness :
    (calculate_pattern_confidence [⟨"Medicine", "2023-01-01", "Attending"⟩]).score = 1/10 :=
  C2_confidence_score.2.2.2.2.2.2.2.2 ⟨"Medicine", "2023-01-01", "Attending"⟩ (by decide)

/-- The description of a nonempty evidence set. -/
theorem conf_description_eq (ev : List Evidence) (hne : ev ≠ []) :
    (calculate_pattern_confidence ev).description = confDescription ev := by
  rw [calculate_pattern_confidence, if_neg (by simpa using hne)]

/-- A total multiplier above 1 forces at least one boost reason. -/
theorem boostList_ne_nil {ev : List Evidence} (h : 1 < confMultiplier ev) :
    boostList ev ≠ [] := by
  intro hnil
  have h1 : ¬ 2 ≤ (uniqueRotations ev).length := by
    intro hc
    rw [boostList, if_pos hc] at hnil
    simp at hnil
  have h2 : ¬ 2 ≤ (uniqueDates ev).length := by
    intro hc
    rw [boostList, if_pos hc] at hnil
    simp at hnil
  have h3 : ¬ (hasResident ev && hasAttending ev) = true := by
    intro hc
    rw [boostList, if_pos hc] at hnil
    simp at hnil
  have hr : rotationMultiplier ev = 1 := by
    simp only [rotationMultiplier]
    rw [if_neg (by omega), if_neg (by omega)]
  have ht : temporalMultiplier ev = 1 := by
    simp only [temporalMultiplier]
    rw [if_neg (by omega)]
  have hro : roleMultiplier ev = 1 := by
    rw [roleMultiplier, if_neg h3]
  rw [confMultiplier, hr, ht, hro] at h
  norm_num at h

/-- The concrete evidence refuting claim C9: two distinct rotations boost
the multiplier above 1, the two distinct dates span only 2 days (a ×1.0
temporal factor), yet "temporal consistency" is listed. -/
def evC9 : List Evidence :=
  [⟨"Medicine", "2023-01-01", "Attending"⟩, ⟨"Surgery", "2023-01-03", "Attending"⟩]

/-- The multiplier of the C9 evidence: 1.15 from two rotations, nothing
from the 2-day span, nothing from the identical roles. -/
theorem evC9_multiplier : confMultiplier evC9 = 23/20 := by
  rw [confMultiplier]
  rw [show temporalMultiplier evC9 = 1 from by
    simp only [temporalMultiplier]
    split_ifs <;> first | rfl | exact absurd ‹_› (by decide)]
  rw [show rotationMultiplier evC9 = 23/20 from by
    simp only [rotationMultiplier]
    rw [if_neg (by decide), if_pos (by decide)]]
  rw [show roleMultiplier evC9 = 1 from by
    rw [roleMultiplier, if_neg (by decide)]]
  norm_num

/-- Claim C9 counterexample: with two distinct dates spanning 2 days the
temporal factor contributes exactly ×1.0, yet as soon as the total
multiplier exceeds 1 the suffix still lists "temporal consistency" —
the listed reasons are not exactly the factors that contributed a
multiplier strictly greater than 1. -/
theorem C9_counterexample :
    temporalMultiplier evC9 = 1 ∧
    (uniqueDates evC9).length = 2 ∧
    (calculate_pattern_confidence evC9).description
      = "2 evaluators across 2 rotations (boosted by cross-rotation consistency, temporal consistency)" ∧
    strHas (calculate_pattern_confidence evC9).description "temporal consistency" = true := by
  have htemp : temporalMultiplier evC9 = 1 := by
    simp only [temporalMultiplier]
    split_ifs <;> first | rfl | exact absurd ‹_› (by decide)
  have hdesc : (calculate_pattern_confidence evC9).description
      = "2 evaluators across 2 rotations (boosted by cross-rotation consistency, temporal consistency)" := by
    rw [conf_description_eq evC9 (by decide), confDescription]
    rw [if_pos (by rw [evC9_multiplier]; norm_num)]
    simp only
    rw [if_pos (by decide)]
    decide
  refine ⟨htemp, by decide, hdesc, ?_⟩
  rw [hdesc]
  decide

/-- Claim C9 (amended): when the total multiplier exceeds 1 the
description carries the `" (boosted by <reasons>)"` suffix whose comma-
joined list contains "cross-rotation consistency" exactly when there are
at least two distinct cleaned rotations (equivalently, the rotation
factor exceeded 1), "role diversity" exactly when both resident and
attending roles are present (equivalently, the role factor exceeded 1),
and "temporal consistency" exactly when there are at least two distinct
dates — even when the temporal factor contributed only ×1.0, as with two
distinct dates at most 7 days apart; the fixed order is rotation,
temporal, role; with a total multiplier of exactly 1 no suffix is
appended. -/
theorem C9_boost_description :
    (∀ ev : List Evidence, ev ≠ [] → 1 < confMultiplier ev →
      (calculate_pattern_confidence ev).description
        = descBase ev ++ " (boosted by " ++ String.intercalate ", " (boostList ev) ++ ")") ∧
    (∀ ev : List Evidence, ev ≠ [] → confMultiplier ev = 1 →
      (calculate_pattern_confidence ev).description = descBase ev) ∧
    (∀ ev : List Evidence, "cross-rotation consistency" ∈ boostList ev ↔
      2 ≤ (uniqueRotations ev).length) ∧
    (∀ ev : List Evidence, "temporal consistency" ∈ boostList ev ↔
      2 ≤ (uniqueDates ev).length) ∧
    (∀ ev : List Evidence, "role diversity" ∈ boostList ev ↔
      (hasResident ev && hasAttending ev) = true) ∧
    (∀ ev : List Evidence, 2 ≤ (uniqueRotations ev).length → 1 < rotationMultiplier ev) ∧
    (∀ ev : List Evidence, (hasResident ev && hasAttending ev) = true →
      1 < roleMultiplier ev) := by
  refine ⟨?_, ?_, ?_, ?_, ?_, ?_, ?_⟩
  · intro ev hne h
    rw [conf_description_eq ev hne, confDescription, if_pos h]
    simp only
    rw [if_pos (by simpa [List.isEmpty_iff] using boostList_ne_nil h)]
  · intro ev hne h
    rw [conf_description_eq ev hne, confDescription, if_neg (by rw [h]; exact lt_irrefl 1)]
  · intro ev
    rw [boostList]
    split_ifs with h1 h2 h3 <;> simp_all
  · intro ev
    rw [boostList]
    split_ifs with h1 h2 h3 <;> simp_all
  · intro ev
    rw [boostList]
    split_ifs with h1 h2 h3 <;> simp_all
  · intro ev h
    simp only [rotationMultiplier]
    split_ifs with h3 h2
    · norm_num
    · norm_num
    · exact absurd h (by omega)
  · intro ev h
    rw [roleMultiplier, if_pos h]
    norm_num

/-- Claim C9 witness: the boosted-description formula instantiated on the
two-rotation, two-close-dates evidence set. -/
theorem C9_boost_description_witness :
    (calculate_pattern_confidence evC9).description
      = descBase evC9 ++ " (boosted by " ++ String.intercalate ", " (boostList evC9) ++ ")" :=
  C9_boost_description.1 evC9 (by decide) (by rw [evC9_multiplier]; norm_num)

/-! ### Trend-classifier lemmas -/

/-- Dropping the entries with unparseable dates beforehand leaves the
parsed list unchanged. -/
theorem trendParsed_filter (items : List TrendItem) :
    trendParsed (items.filter (fun it => (agent_parse_date it.date).isSome))
      = trendParsed items := by
  induction items with
  | nil => rfl
  | cons it rest ih =>
    cases h : agent_parse_date it.date with
    | none =>
      simp only [trendParsed, List.filter_cons, h, Option.isSome_none, Bool.false_eq_true,
        if_false, List.filterMap_cons, Option.map_none'] at ih ⊢
      exact ih
    | some d =>
      simp only [trendParsed, List.filter_cons, h, Option.isSome_some, if_true,
        List.filterMap_cons, Option.map_some'] at ih ⊢
      rw [ih]

/-- The parsed list is exactly as long as the list of parseable entries. -/
theorem trendParsed_length_filter (items : List TrendItem) :
    (items.filter (fun it => (agent_parse_date it.date).isSome)).length
      = (trendParsed items).length := by
  induction items with
  | nil => rfl
  | cons it rest ih =>
    cases h : agent_parse_date it.date with
    | none =>
      simp only [trendParsed, List.filter_cons, h, Option.isSome_none, Bool.false_eq_true,
        if_false, List.filterMap_cons, Option.map_none'] at ih ⊢
      exact ih
    | some d =>
      simp only [trendParsed, List.filter_cons, h, Option.isSome_some, if_true,
        List.filterMap_cons, Option.map_some', List.length_cons] at ih ⊢
      rw [ih]

/-- The parsed list is never longer than the input. -/
theorem trendParsed_length_le (items : List TrendItem) :
    (trendParsed items).length ≤ items.length :=
  List.length_filterMap_le _ _

/-- The main branch of the trend classifier: with at least two valid
points the result is determined by the change between the last and the
first score of the chronologically sorted valid points. -/
theorem trend_main_branch (items : List TrendItem)
    (h2 : 2 ≤ (trendParsed items).length) :
    ∃ chg : ℚ,
      chg = (((trendSorted items).getLast?.map (fun p => p.2.1)).getD 0)
          - (((trendSorted items).head?.map (fun p => p.2.1)).getD 0) ∧
      (calculate_trend_fixed items).direction = trendDirection chg ∧
      (calculate_trend_fixed items).magnitude = pyRound 2 (min 1 (|chg| / 4)) ∧
      (calculate_trend_fixed items).change = some (pyRound 2 chg) := by
  have hlen : ¬ items.length < 2 := by
    have := trendParsed_length_le items
    omega
  simp only [calculate_trend_fixed]
  rw [if_neg hlen, if_neg (by omega)]
  exact ⟨_, rfl, rfl, rfl, rfl⟩

/-- Claim C1 (amended): the trend classifier discards entries with
unparseable dates; the valid points are stably sorted ascending by their
parsed date; with fewer than two valid points it returns direction
"stable" and magnitude 0; otherwise, with `change` the difference between
the chronologically last and first scores of the sorted valid points, it returns the direction of the `|change| < 0.3` rule — so a
change of exactly 0.3 is "improving", 0.29 is "stable" and -0.3 is
"declining" — the magnitude `min(1, |change|/4)` rounded to two decimals,
and the change rounded to two decimals. -/
theorem C1_trend_classifier :
    (∀ items : List TrendItem,
      List.Sorted (fun a b : PyDate × ℚ × ℚ => a.1.key ≤ b.1.key) (trendSorted items) ∧
      (trendSorted items).Perm (trendParsed items)) ∧
    (∀ items : List TrendItem,
      calculate_trend_fixed items
        = calculate_trend_fixed (items.filter (fun it => (agent_parse_date it.date).isSome))) ∧
    (∀ items : List TrendItem, (trendParsed items).length < 2 →
      calculate_trend_fixed items = trendInsufficient) ∧
    trendInsufficient = ⟨"stable", 0, none, none, none, none⟩ ∧
    (∀ items : List TrendItem, 2 ≤ (trendParsed items).length →
      ∃ chg : ℚ,
        chg = (((trendSorted items).getLast?.map (fun p => p.2.1)).getD 0)
            - (((trendSorted items).head?.map (fun p => p.2.1)).getD 0) ∧
        (calculate_trend_fixed items).direction = trendDirection chg ∧
        (calculate_trend_fixed items).magnitude = pyRound 2 (min 1 (|chg| / 4)) ∧
        (calculate_trend_fixed items).change = some (pyRound 2 chg)) ∧
    trendDirection (3/10) = "improving" ∧
    trendDirection (29/100) = "stable" ∧
    trendDirection (-(29/100)) = "stable" ∧
    trendDirection (-(3/10)) = "declining" := by
  have hdeg : ∀ items : List TrendItem, (trendParsed items).length < 2 →
      calculate_trend_fixed items = trendInsufficient := by
    intro items h
    simp only [calculate_trend_fixed]
    split_ifs with h1
    · rfl
    · rfl
  refine ⟨?_, ?_, hdeg, rfl, ?_, ?_, ?_, ?_, ?_⟩
  · intro items
    constructor
    · haveI h1 : IsTotal (PyDate × ℚ × ℚ) (fun a b => a.1.key ≤ b.1.key) :=
        ⟨fun a b => Nat.le_total a.1.key b.1.key⟩
      haveI h2 : IsTrans (PyDate × ℚ × ℚ) (fun a b => a.1.key ≤ b.1.key) :=
        ⟨fun a b c => Nat.le_trans⟩
      exact List.sorted_insertionSort _ _
    · exact List.perm_insertionSort _ _
  · intro items
    by_cases h2 : (trendParsed items).length < 2
    · rw [hdeg items h2, hdeg _ ?_]
      rw [trendParsed_filter]
      exact h2
    · have hlen : ¬ items.length < 2 := by
        have := trendParsed_length_le items
        omega
      have hlenf : ¬ (items.filter (fun it => (agent_parse_date it.date).isSome)).length < 2 := by
        rw [trendParsed_length_filter]
        exact h2
      have h2f : ¬ (trendParsed (items.filter
          (fun it => (agent_parse_date it.date).isSome))).length < 2 := by
        rw [trendParsed_filter]
        exact h2
      simp only [calculate_trend_fixed, trendSorted]
      rw [if_neg hlen, if_neg h2, if_neg hlenf, if_neg h2f, trendParsed_filter]
  · exact trend_main_branch
  · rw [trendDirection, if_neg (by rw [abs_of_nonneg (by norm_num : (0:ℚ) ≤ 3/10)]; norm_num),
      if_pos (by norm_num)]
  · rw [trendDirection, if_pos (by rw [abs_of_nonneg (by norm_num : (0:ℚ) ≤ 29/100)]; norm_num)]
  · rw [trendDirection, if_pos (by rw [abs_of_nonpos (by norm_num : -(29/100:ℚ) ≤ 0)]; norm_num)]
  · rw [trendDirection, if_neg (by rw [abs_of_nonpos (by norm_num : -(3/10:ℚ) ≤ 0)]; norm_num),
      if_neg (by norm_num)]

/-- The concrete observations refuting claim C1 as stated: two valid
points one month apart with a score change of 0.01. -/
def itemsC1 : List TrendItem := [⟨"2023-01-01", 3, 1⟩, ⟨"2023-02-01", 301/100, 1⟩]

/-- Claim C1 counterexample: on a change of 0.01 the claimed magnitude
`min(1.0, |change|/4.0) = 0.0025` differs from the returned magnitude,
which is rounded to two decimals and is exactly 0. -/
theorem C1_counterexample :
    (calculate_trend_fixed itemsC1).change = some (1/100) ∧
    (calculate_trend_fixed itemsC1).magnitude = 0 ∧
    min 1 (|(1/100 : ℚ)| / 4) ≠ (0 : ℚ) := by
  have hsort : trendSorted itemsC1
      = [(⟨2023, 1, 1⟩, (3 : ℚ), (1 : ℚ)), (⟨2023, 2, 1⟩, (301/100 : ℚ), (1 : ℚ))] := rfl
  obtain ⟨chg, hchg, _, hmag, hch⟩ := trend_main_branch itemsC1 (by decide)
  have hchg1 : chg = 1/100 := by
    rw [hchg, hsort]
    show (301/100 : ℚ) - 3 = 1/100
    norm_num
  have habs : |(1/100 : ℚ)| = 1/100 := abs_of_pos (by norm_num)
  refine ⟨?_, ?_, ?_⟩
  · rw [hch, hchg1]
    have h := pyRound_int_div 2 1
    norm_num at h
    rw [h]
  · rw [hmag, hchg1, habs]
    rw [show min (1:ℚ) (1/100 / 4) = 1/400 from by rw [min_eq_right (by norm_num)]; norm_num]
    simp only [pyRound]
    rw [show ((1:ℚ)/400 * 10^2) = 1/4 from by norm_num]
    rw [show ⌊(1:ℚ)/4⌋ = 0 from by norm_num [Int.floor_eq_iff]]
    norm_num
  · rw [habs]
    rw [show min (1:ℚ) (1/100 / 4) = 1/400 from by rw [min_eq_right (by norm_num)]; norm_num]
    norm_num

/-- The concrete observations for the claim C1 witness: an improving
series. -/
def itemsC1w : List TrendItem := [⟨"2023-01-01", 3, 1⟩, ⟨"2023-02-01", 4, 1⟩]

/-- Claim C1 witness: a rise from 3 to 4 over a month is classified
"improving". -/
theorem C1_trend_classifier_witness :
    (calculate_trend_fixed itemsC1w).direction = "improving" := by
  obtain ⟨chg, hchg, hdir, _, _⟩ := C1_trend_classifier.2.2.2.2.1 itemsC1w (by decide)
  have hsort : trendSorted itemsC1w
      = [(⟨2023, 1, 1⟩, (3 : ℚ), (1 : ℚ)), (⟨2023, 2, 1⟩, (4 : ℚ), (1 : ℚ))] := rfl
  have hchg1 : chg = 1 := by
    rw [hchg, hsort]
    show (4 : ℚ) - 3 = 1
    norm_num
  rw [hdir, hchg1, trendDirection,
    if_neg (by rw [abs_of_pos (by norm_num : (0:ℚ) < 1)]; norm_num), if_pos (by norm_num)]

/-! ### Grouping-key lemmas -/

/-- A pipe-free list has no double pipe. -/
theorem pipePipe_of_not_mem {l : List Char} (h : '|' ∉ l) : pipePipe l = false := by
  induction l with
  | nil => rfl
  | cons a rest ih =>
    cases rest with
    | nil => rfl
    | cons b rest2 =>
      have ha : a ≠ '|' := fun hc => h (hc ▸ List.mem_cons_self a _)
      have ht : '|' ∉ b :: rest2 := fun hc => h (List.mem_cons_of_mem a hc)
      simp only [pipePipe, ih ht]
      simp [ha]

/-- A double pipe is always found. -/
theorem pipePipe_append_pp (x z : List Char) : pipePipe (x ++ '|' :: '|' :: z) = true := by
  induction x with
  | nil =>
    simp only [List.nil_append, pipePipe]
    simp
  | cons c xs ih =>
    cases xs with
    | nil =>
      simp only [List.cons_append, List.nil_append, pipePipe] at ih ⊢
      simp_all
    | cons c2 xs2 =>
      simp only [List.cons_append, pipePipe] at ih ⊢
      simp_all

/-- Scanning a pipe-free prefix finds nothing before the first pipe. -/
theorem pipePipe_skip {x : List Char} (hx : '|' ∉ x) (rest : List Char) :
    pipePipe (x ++ '|' :: rest) = pipePipe ('|' :: rest) := by
  induction x with
  | nil => rfl
  | cons c xs ih =>
    have hc : c ≠ '|' := fun h => hx (h ▸ List.mem_cons_self c _)
    have hxs : '|' ∉ xs := fun h => hx (List.mem_cons_of_mem c h)
    cases xs with
    | nil =>
      simp only [List.cons_append, List.nil_append, pipePipe]
      simp [hc]
    | cons c2 xs2 =>
      simp only [List.cons_append, List.append_eq, pipePipe] at ih ⊢
      rw [ih hxs]
      simp [hc]

/-- After a single leading pipe, a pipe-free nonempty segment continues
the scan past the pipe. -/
theorem pipePipe_after {y : List Char} (hy : '|' ∉ y) (hne : y ≠ []) (rest : List Char) :
    pipePipe ('|' :: (y ++ rest)) = pipePipe (y ++ rest) := by
  cases y with
  | nil => exact absurd rfl hne
  | cons c ys =>
    have hc : c ≠ '|' := fun h => hy (h ▸ List.mem_cons_self c _)
    simp only [List.cons_append, pipePipe]
    simp [hc]

/-- A terminal pipe followed by a pipe-free tail has no double pipe. -/
theorem pipePipe_last {d : List Char} (hd : '|' ∉ d) : pipePipe ('|' :: d) = false := by
  cases d with
  | nil => rfl
  | cons c ds =>
    have hc : c ≠ '|' := fun h => hd (h ▸ List.mem_cons_self c _)
    simp only [pipePipe, pipePipe_of_not_mem hd]
    simp [hc]

/-- Splitting a pipe-free list yields one part. -/
theorem splitChar_of_not_mem {x : List Char} (h : '|' ∉ x) : splitChar '|' x = [x] := by
  induction x with
  | nil => rfl
  | cons c xs ih =>
    have hc : c ≠ '|' := fun hx => h (hx ▸ List.mem_cons_self c _)
    have hxs : '|' ∉ xs := fun hx => h (List.mem_cons_of_mem c hx)
    rw [splitChar, if_neg hc, ih hxs]

/-- Splitting peels off a pipe-free prefix at the first pipe. -/
theorem splitChar_append {x : List Char} (h : '|' ∉ x) (rest : List Char) :
    splitChar '|' (x ++ '|' :: rest) = x :: splitChar '|' rest := by
  induction x with
  | nil =>
    rw [List.nil_append, splitChar, if_pos rfl]
  | cons c xs ih =>
    have hc : c ≠ '|' := fun hx => h (hx ▸ List.mem_cons_self c _)
    have hxs : '|' ∉ xs := fun hx => h (List.mem_cons_of_mem c hx)
    rw [List.cons_append, splitChar, if_neg hc, ih hxs]

/-- Splitting a four-component pipe-free key gives four parts. -/
theorem splitChar_four (f p y d : List Char) (hf : '|' ∉ f) (hp : '|' ∉ p)
    (hy : '|' ∉ y) (hd : '|' ∉ d) :
    splitChar '|' (f ++ ('|' :: (p ++ ('|' :: (y ++ ('|' :: d)))))) = [f, p, y, d] := by
  rw [splitChar_append hf, splitChar_append hp, splitChar_append hy, splitChar_of_not_mem hd]

/-- The double-pipe test on a four-component pipe-free key fires exactly
when the second or the third component is empty. -/
theorem pipePipe_four (f p y d : List Char) (hf : '|' ∉ f) (hp : '|' ∉ p)
    (hy : '|' ∉ y) (hd : '|' ∉ d) :
    pipePipe (f ++ ('|' :: (p ++ ('|' :: (y ++ ('|' :: d))))))
      = (p.isEmpty || y.isEmpty) := by
  by_cases hpe : p = []
  · subst hpe
    simp only [List.nil_append, List.isEmpty_nil, Bool.true_or]
    exact pipePipe_append_pp f (y ++ ('|' :: d))
  · rw [pipePipe_skip hf, pipePipe_after hp hpe]
    by_cases hye : y = []
    · subst hye
      simp only [List.nil_append, List.isEmpty_nil, Bool.or_true]
      exact pipePipe_append_pp p d
    · rw [pipePipe_skip hp, pipePipe_after hy hye, pipePipe_skip hy, pipePipe_last hd]
      cases p with
      | nil => exact absurd rfl hpe
      | cons a as =>
        cases y with
        | nil => exact absurd rfl hye
        | cons b bs => rfl

/-- The character list of the grouping key, fully right-associated. -/
theorem formKey_data (r : RawRow) :
    (formKey r).data = r.formname.data ++ ('|' :: (r.phasename.data ++ ('|' ::
      (r.academicyearname.data ++ ('|' :: r.releasedate.data))))) := by
  simp [formKey, String.data_append]

/-- A string equals the empty string exactly when its data is empty. -/
theorem string_eq_empty_iff (s : String) : s = "" ↔ s.data.isEmpty = true := by
  cases s with
  | mk l =>
    cases l with
    | nil => simp [String.ext_iff]
    | cons c cs => simp [String.ext_iff]

/-- The row refuting claim C7: its form-name component is missing, yet it
is segmented and produces a record. -/
def rowC7 : RawRow :=
  { student := "S1", formname := "", phasename := "Phase 1",
    academicyearname := "2023", releasedate := "1/2/23 10:00",
    questionname := "Please select your role:", questionchoicetext := "Attending",
    rating_answer_sortorder := "", ratingscalequestiontext := "",
    text_answer_category := "", text_answer := "" }

/-- Claim C7 counterexample: a row whose form-name component is missing
(empty) is NOT excluded — its grouping key `|Phase 1|2023|...` contains no
`||` and still splits into four parts, so the row is segmented and
contributes an EvaluationRecord. -/
theorem C7_counterexample :
    rowC7.formname = "" ∧
    skipFormKey (formKey rowC7) = false ∧
    (process_data [rowC7]).length = 1 := by
  exact ⟨rfl, by decide, by decide⟩

/-- Claim C7 (amended): for rows whose four key components are themselves
pipe-free, the skip test fires exactly when the phase or the academic
year component is empty; a skipped key contributes no records; a row
missing only the form name or only the release date is retained (its key
still splits into four parts and contains no `||`) and can contribute an
EvaluationRecord, as the counterexample shows. -/
theorem C7_grouping_key :
    (∀ r : RawRow, '|' ∉ r.formname.data → '|' ∉ r.phasename.data →
      '|' ∉ r.academicyearname.data → '|' ∉ r.releasedate.data →
      (skipFormKey (formKey r) = true ↔ (r.phasename = "" ∨ r.academicyearname = ""))) ∧
    (∀ (student : String) (rows : List RawRow) (k : String),
      skipFormKey k = true → keyContribution student rows k = []) := by
  constructor
  · intro r hf hp hy hd
    have hparts : (formKeyParts (formKey r)).length = 4 := by
      rw [formKeyParts, formKey_data, splitChar_four _ _ _ _ hf hp hy hd]
      rfl
    have hpp : pipePipe (formKey r).data
        = (r.phasename.data.isEmpty || r.academicyearname.data.isEmpty) := by
      rw [formKey_data]
      exact pipePipe_four _ _ _ _ hf hp hy hd
    rw [skipFormKey, hpp, hparts]
    rw [string_eq_empty_iff, string_eq_empty_iff]
    constructor
    · intro h
      simp only [Bool.or_eq_true] at h
      rcases h with (h | h) | h
      · exact Or.inl h
      · exact Or.inr h
      · simp at h
    · intro h
      rcases h with h | h <;> simp [h]
  · intro student rows k h
    rw [keyContribution, if_pos h]

/-- A row with an empty phase component, for the claim C7 witness. -/
def rowC7w : RawRow :=
  { student := "S1", formname := "F", phasename := "",
    academicyearname := "2023", releasedate := "D",
    questionname := "q", questionchoicetext := "", rating_answer_sortorder := "",
    ratingscalequestiontext := "", text_answer_category := "", text_answer := "" }

/-- Claim C7 witness: a row with an empty phase component has a skipped
key, and skipped keys contribute no records. -/
theorem C7_grouping_key_witness :
    skipFormKey (formKey rowC7w) = true ∧
    keyContribution "S1" [] "F||2023|D" = [] := by
  constructor
  · exact (C7_grouping_key.1 rowC7w (by decide) (by decide) (by decide) (by decide)).mpr
      (Or.inl rfl)
  · exact C7_grouping_key.2 "S1" [] "F||2023|D" (by decide)

/-! ### Evaluator-block lemmas -/

/-- Membership in the sentinel-index list characterizes the sentinel rows. -/
theorem mem_indicesWhere {p : RawRow → Bool} {rows : List RawRow} {i : Nat} :
    i ∈ indicesWhere p rows ↔ ∃ r, rows[i]? = some r ∧ p r = true := by
  induction rows generalizing i with
  | nil => simp [indicesWhere]
  | cons r rest ih =>
    rw [indicesWhere]
    cases i with
    | zero =>
      simp only [List.mem_append, List.mem_map]
      constructor
      · intro h
        rcases h with h | ⟨j, _, hj⟩
        · refine ⟨r, by simp, ?_⟩
          by_cases hp : p r
          · exact hp
          · rw [if_neg hp] at h
            simp at h
        · omega
      · intro ⟨r', hr', hp⟩
        simp only [List.getElem?_cons_zero, Option.some.injEq] at hr'
        subst hr'
        exact Or.inl (by rw [if_pos hp]; simp)
    | succ j =>
      simp only [List.mem_append, List.mem_map]
      constructor
      · intro h
        rcases h with h | ⟨i', hi', hj⟩
        · split_ifs at h <;> simp at h
        · have : i' = j := by omega
          subst this
          obtain ⟨r', hr', hp⟩ := ih.mp hi'
          exact ⟨r', by simpa using hr', hp⟩
      · intro ⟨r', hr', hp⟩
        simp only [List.getElem?_cons_succ] at hr'
        exact Or.inr ⟨j, ih.mpr ⟨r', hr', hp⟩, rfl⟩

/-- Sentinel indices are positions of the table. -/
theorem indicesWhere_lt {p : RawRow → Bool} {rows : List RawRow} {i : Nat}
    (h : i ∈ indicesWhere p rows) : i < rows.length := by
  obtain ⟨r, hr, _⟩ := mem_indicesWhere.mp h
  exact (List.getElem?_eq_some.mp hr).1

/-- The sentinel-index list is strictly increasing. -/
theorem indicesWhere_chain (p : RawRow → Bool) (rows : List RawRow) :
    List.Chain' (· < ·) (indicesWhere p rows) := by
  induction rows with
  | nil => simp [indicesWhere]
  | cons r rest ih =>
    rw [indicesWhere]
    have hmap : List.Chain' (· < ·) ((indicesWhere p rest).map (· + 1)) := by
      rw [List.chain'_map]
      exact ih.imp (fun h => by omega)
    by_cases hp : p r
    · rw [if_pos hp]
      rw [List.singleton_append, List.chain'_cons']
      refine ⟨?_, hmap⟩
      intro b hb
      have hmem := List.mem_of_mem_head? hb
      obtain ⟨j, _, hj⟩ := List.mem_map.mp hmem
      omega
    · rw [if_neg hp, List.nil_append]
      exact hmap

/-- The boundary list is strictly increasing. -/
theorem blockBounds_chain (rows : List RawRow) :
    List.Chain' (· < ·) (blockBounds rows) := by
  rw [blockBounds, List.chain'_append]
  refine ⟨indicesWhere_chain _ _, by simp, ?_⟩
  intro x hx y hy
  simp only [List.head?_cons, Option.mem_def, Option.some.injEq] at hy
  subst hy
  exact indicesWhere_lt (List.mem_of_mem_getLast? hx)

/-- Each consecutive pair sits at consecutive positions. -/
theorem consecPairs_getElem {l : List Nat} {a b : Nat}
    (h : (a, b) ∈ consecPairs l) : ∃ i, l[i]? = some a ∧ l[i + 1]? = some b := by
  induction l with
  | nil => cases h
  | cons x rest ih =>
    cases rest with
    | nil => cases h
    | cons y rest2 =>
      rw [consecPairs] at h
      rcases List.mem_cons.mp h with h | h
      · cases h
        exact ⟨0, by simp, by simp⟩
      · obtain ⟨i, h1, h2⟩ := ih h
        exact ⟨i + 1, by simpa using h1, by simpa using h2⟩

/-- In a strictly increasing list consecutive pairs increase. -/
theorem consecPairs_lt {l : List Nat} (hc : List.Chain' (· < ·) l) {a b : Nat}
    (h : (a, b) ∈ consecPairs l) : a < b := by
  obtain ⟨i, h1, h2⟩ := consecPairs_getElem h
  obtain ⟨hi, ha⟩ := List.getElem?_eq_some.mp h1
  obtain ⟨hi2, hb⟩ := List.getElem?_eq_some.mp h2
  have hp := List.chain'_iff_pairwise.mp hc
  have := (List.pairwise_iff_get.mp hp) ⟨i, hi⟩ ⟨i + 1, hi2⟩ (by simp)
  simpa [List.get_eq_getElem, ha, hb] using this

/-- In a strictly increasing list nothing lies strictly between a
consecutive pair. -/
theorem consecPairs_no_between {l : List Nat} (hc : List.Chain' (· < ·) l) {a b : Nat}
    (h : (a, b) ∈ consecPairs l) {c : Nat} (hcmem : c ∈ l) : ¬(a < c ∧ c < b) := by
  rintro ⟨hac, hcb⟩
  obtain ⟨i, h1, h2⟩ := consecPairs_getElem h
  obtain ⟨hi, ha⟩ := List.getElem?_eq_some.mp h1
  obtain ⟨hi2, hb⟩ := List.getElem?_eq_some.mp h2
  obtain ⟨⟨j, hj⟩, hcj⟩ := List.mem_iff_get.mp hcmem
  rw [List.get_eq_getElem] at hcj
  have hp := List.pairwise_iff_get.mp (List.chain'_iff_pairwise.mp hc)
  rcases lt_trichotomy j (i + 1) with hlt | heq | hgt
  · rcases Nat.lt_or_ge j i with hji | hji
    · have hlt2 := hp ⟨j, hj⟩ ⟨i, hi⟩ (by simpa using hji)
      simp only [List.get_eq_getElem] at hlt2
      rw [hcj, ha] at hlt2
      omega
    · have : j = i := by omega
      subst this
      rw [ha] at hcj
      omega
  · subst heq
    rw [hb] at hcj
    omega
  · have hlt2 := hp ⟨i + 1, hi2⟩ ⟨j, hj⟩ (by simpa using hgt)
    simp only [List.get_eq_getElem] at hlt2
    rw [hcj, hb] at hlt2
    omega

/-- Concatenating the slices between consecutive boundaries reproduces
the suffix of the table from the first boundary on. -/
theorem join_slices (rows : List RawRow) :
    ∀ bounds : List Nat, List.Chain' (· < ·) (bounds ++ [rows.length]) →
    ((consecPairs (bounds ++ [rows.length])).map
        (fun pr => (rows.drop pr.1).take (pr.2 - pr.1))).flatten
      = rows.drop (bounds.headD rows.length) := by
  intro bounds
  induction bounds with
  | nil =>
    intro _
    simp [consecPairs, List.drop_length]
  | cons a rest ih =>
    intro hc
    cases rest with
    | nil =>
      simp only [List.cons_append, List.nil_append, consecPairs, List.map_cons, List.map_nil,
        List.flatten_cons, List.flatten_nil, List.append_nil, List.headD_cons]
      apply List.take_of_length_le
      rw [List.length_drop]
    | cons b rest2 =>
      have hab : a < b := by
        rw [List.cons_append, List.cons_append, List.chain'_cons] at hc
        exact hc.1
      have hctail : List.Chain' (· < ·) ((b :: rest2) ++ [rows.length]) := by
        rw [List.cons_append, List.cons_append, List.chain'_cons] at hc
        rw [List.cons_append]
        exact hc.2
      have hihb := ih hctail
      simp only [List.headD_cons] at hihb ⊢
      rw [show ((a :: b :: rest2) ++ [rows.length]) = a :: ((b :: rest2) ++ [rows.length])
        from rfl]
      rw [show consecPairs (a :: ((b :: rest2) ++ [rows.length]))
          = (a, b) :: consecPairs ((b :: rest2) ++ [rows.length]) from rfl]
      rw [List.map_cons, List.flatten_cons, hihb]
      rw [show rows.drop b = (rows.drop a).drop (b - a) from by
        rw [List.drop_drop]
        congr 1
        omega]
      exact List.take_append_drop _ _

/-- Claim C4 (amended): the block boundaries are strictly increasing (so
the blocks are pairwise disjoint contiguous slices and every row belongs
to at most one block); every block starts with a sentinel
role-selection row and contains no other sentinel row; and concatenating
all blocks in order reproduces the suffix of the filtered row sequence
that starts at the first sentinel row — the rows before the first
sentinel (all of the table when there is no sentinel) belong to no block
and are lost, so the concatenation reproduces the original sequence only
when the table starts with a sentinel row. -/
theorem C4_block_segmentation :
    (∀ rows : List RawRow, List.Chain' (· < ·) (blockBounds rows)) ∧
    (∀ (rows : List RawRow) (b : List RawRow), b ∈ identify_evaluator_blocks rows →
      ∃ r t, b = r :: t ∧ isRoleRow r = true ∧ ∀ x ∈ t, isRoleRow x = false) ∧
    (∀ rows : List RawRow, (identify_evaluator_blocks rows).flatten
      = rows.drop ((indicesWhere isRoleRow rows).headD rows.length)) ∧
    (∀ rows : List RawRow, ((identify_evaluator_blocks rows).map List.length).sum
      = rows.length - (indicesWhere isRoleRow rows).headD rows.length) := by
  have hjoin : ∀ rows : List RawRow, (identify_evaluator_blocks rows).flatten
      = rows.drop ((indicesWhere isRoleRow rows).headD rows.length) := by
    intro rows
    rw [identify_evaluator_blocks]
    exact join_slices rows (indicesWhere isRoleRow rows) (blockBounds_chain rows)
  refine ⟨blockBounds_chain, ?_, hjoin, ?_⟩
  · intro rows b hb
    rw [identify_evaluator_blocks] at hb
    obtain ⟨⟨a, e⟩, hpr, hslice⟩ := List.mem_map.mp hb
    have hchain := blockBounds_chain rows
    have hae : a < e := consecPairs_lt hchain hpr
    have hamem : a ∈ indicesWhere isRoleRow rows := by
      obtain ⟨i, h1, h2⟩ := consecPairs_getElem hpr
      have hi2 : i + 1 < (blockBounds rows).length := (List.getElem?_eq_some.mp h2).1
      have hlen : (blockBounds rows).length
          = (indicesWhere isRoleRow rows).length + 1 := by
        rw [blockBounds, List.length_append, List.length_cons, List.length_nil]
      have hi : i < (indicesWhere isRoleRow rows).length := by omega
      rw [blockBounds, List.getElem?_append, if_pos hi] at h1
      obtain ⟨hlt, hget⟩ := List.getElem?_eq_some.mp h1
      exact hget ▸ List.getElem_mem hlt
    obtain ⟨r, hr, hrole⟩ := mem_indicesWhere.mp hamem
    have halt : a < rows.length := (List.getElem?_eq_some.mp hr).1
    have hra : rows[a] = r := by
      obtain ⟨_, hget⟩ := List.getElem?_eq_some.mp hr
      exact hget
    refine ⟨r, ((rows.drop (a + 1)).take (e - a - 1)), ?_, hrole, ?_⟩
    · rw [← hslice]
      rw [List.drop_eq_getElem_cons halt, hra]
      rcases Nat.exists_eq_add_of_lt hae with ⟨k, hk⟩
      rw [show e - a = k + 1 from by omega, List.take_succ_cons]
      norm_num
    · intro x hx
      by_contra hxr
      rw [Bool.not_eq_false] at hxr
      obtain ⟨⟨j, hj⟩, hxj⟩ := List.mem_iff_get.mp hx
      simp only [List.get_eq_getElem] at hxj
      have hjlt : j < e - a - 1 := by
        have := hj
        simp only [List.length_take, List.length_drop] at this
        omega
      have hgx : rows[a + 1 + j]? = some x := by
        have h0 : ((rows.drop (a + 1)).take (e - a - 1))[j]? = some x := by
          rw [List.getElem?_eq_some]
          exact ⟨hj, hxj⟩
        rw [List.getElem?_take, if_pos hjlt, List.getElem?_drop] at h0
        exact h0
      have hmemx : a + 1 + j ∈ indicesWhere isRoleRow rows :=
        mem_indicesWhere.mpr ⟨x, hgx, hxr⟩
      have hmemb : a + 1 + j ∈ blockBounds rows := by
        rw [blockBounds]
        exact List.mem_append_left _ hmemx
      exact consecPairs_no_between hchain hpr hmemb ⟨by omega, by omega⟩
  · intro rows
    have h := congrArg List.length (hjoin rows)
    rw [List.length_flatten, List.length_drop] at h
    exact h

/-- A non-sentinel row, the claim C4 counterexample input. -/
def rowC4 : RawRow :=
  { student := "S1", formname := "F", phasename := "P",
    academicyearname := "2023", releasedate := "D",
    questionname := "Some ordinary question", questionchoicetext := "",
    rating_answer_sortorder := "", ratingscalequestiontext := "",
    text_answer_category := "", text_answer := "" }

/-- Claim C4 counterexample: a table consisting of one non-sentinel row
produces no blocks at all, so concatenating all blocks does not
reproduce the original filtered row sequence. -/
theorem C4_counterexample :
    identify_evaluator_blocks [rowC4] = [] ∧
    (identify_evaluator_blocks [rowC4]).flatten ≠ [rowC4] := by
  refine ⟨by decide, ?_⟩
  rw [show identify_evaluator_blocks [rowC4] = [] from by decide]
  simp

/-- A sentinel row for the claim C4 witness. -/
def roleRowW : RawRow :=
  { rowC4 with questionname := "Please select your role:", questionchoicetext := "Attending" }

/-- Claim C4 witness: in the two-row table starting with a sentinel, the
(unique) block starts with the sentinel row. -/
theorem C4_block_segmentation_witness : isRoleRow roleRowW = true := by
  obtain ⟨r, t, hb, hrole, _⟩ :=
    C4_block_segmentation.2.1 [roleRowW, rowC4] [roleRowW, rowC4] (by decide)
  cases hb
  exact hrole

/-! ### Record-construction lemmas -/

/-- A fold of key-value updates whose keys all avoid `k` leaves the
record unchanged at `k`. -/
theorem foldl_applyKV_ne (f : RawRow → Option (String × CellVal)) (l : List RawRow)
    (init : Record) (k : String)
    (h : ∀ r ∈ l, ∀ kv, f r = some kv → kv.1 ≠ k) :
    (l.foldl (fun acc r => applyKV acc (f r)) init) k = init k := by
  induction l generalizing init with
  | nil => rfl
  | cons r rest ih =>
    rw [List.foldl_cons]
    rw [ih _ (fun r' hr' => h r' (List.mem_cons_of_mem _ hr'))]
    cases hf : f r with
    | none => rfl
    | some kv =>
      simp only [applyKV, rset]
      rw [if_neg]
      intro hc
      exact (h r (List.mem_cons_self _ _) kv hf) hc.symm

/-- A fold of key-value updates reads back, at `k`, the value of the last
update that targeted `k`, and the initial record when none did. -/
theorem foldl_applyKV_last (f : RawRow → Option (String × CellVal)) (l : List RawRow)
    (init : Record) (k : String) :
    (l.foldl (fun acc r => applyKV acc (f r)) init) k
      = match ((l.filterMap f).filter (fun kv => kv.1 == k)).getLast? with
        | some kv => some kv.2
        | none => init k := by
  induction l using List.reverseRecOn with
  | nil => rfl
  | append_singleton l r ih =>
    rw [List.foldl_append, List.foldl_cons, List.foldl_nil]
    rw [List.filterMap_append, List.filter_append]
    cases hf : f r with
    | none =>
      rw [show (List.filterMap f [r]) = [] from by simp [hf]]
      rw [List.filter_nil, List.append_nil]
      exact ih
    | some kv =>
      rw [show (List.filterMap f [r]) = [kv] from by simp [hf]]
      by_cases hk : (kv.1 == k) = true
      · rw [show (List.filter (fun kv => kv.1 == k) [kv]) = [kv] from by simp [hk]]
        rw [List.getLast?_concat]
        simp only [applyKV, rset]
        rw [if_pos (beq_iff_eq.mp hk).symm]
      · rw [show (List.filter (fun kv => kv.1 == k) [kv]) = [] from by
          simp only [List.filter_cons, hk]
          rfl]
        rw [List.append_nil]
        simp only [applyKV, rset]
        rw [if_neg (by
          intro hc
          exact hk (by simp [hc]))]
        exact ih

/-- Appending to a fixed prefix is injective on strings. -/
theorem string_append_right_inj (p a b : String) : p ++ a = p ++ b ↔ a = b := by
  constructor
  · intro h
    have hd := congrArg String.data h
    rw [String.data_append, String.data_append] at hd
    exact String.ext (List.append_cancel_left hd)
  · intro h
    rw [h]

/-- A professionalism key never collides with an EPA key. -/
theorem prof_key_ne_epa (s t : String) : "prof_" ++ s ≠ "epa" ++ t := by
  intro h
  have hd := congrArg String.data h
  rw [String.data_append, String.data_append,
    show ("prof_" : String).data = ['p', 'r', 'o', 'f', '_'] from rfl,
    show ("epa" : String).data = ['e', 'p', 'a'] from rfl] at hd
  simp at hd

/-- A professionalism key never collides with a communication key. -/
theorem prof_key_ne_comm (s : String) (c : String)
    (hc : c = "comm_listening" ∨ c = "comm_decision_making" ∨ c = "comm_advocacy") :
    "prof_" ++ s ≠ c := by
  intro h
  have hd := congrArg String.data h
  rw [String.data_append, show ("prof_" : String).data = ['p', 'r', 'o', 'f', '_'] from rfl] at hd
  rcases hc with hc | hc | hc <;> (subst hc; simp at hd)

/-- The professionalism updates of a row list, restricted to one target
key, are exactly the updates of the rows bearing that slug. -/
theorem profKV_filter (l : List RawRow) (s : String) :
    ((l.filterMap profKV).filter (fun kv => kv.1 == "prof_" ++ s))
      = (l.filter (fun q => (!(q.ratingscalequestiontext == "")) &&
          (convert_to_key q.ratingscalequestiontext == s))).map
        (fun q => ("prof_" ++ s, CellVal.iopt (safe_int q.rating_answer_sortorder))) := by
  induction l with
  | nil => rfl
  | cons q rest ih =>
    rw [List.filterMap_cons, List.filter_cons]
    by_cases hq : q.ratingscalequestiontext = ""
    · rw [show profKV q = none from by rw [profKV, if_neg (by simp [hq])]]
      rw [show ((!(q.ratingscalequestiontext == "")) &&
          (convert_to_key q.ratingscalequestiontext == s)) = false from by simp [hq]]
      simp only [Bool.false_eq_true, if_false]
      exact ih
    · rw [show profKV q = some ("prof_" ++ convert_to_key q.ratingscalequestiontext,
          CellVal.iopt (safe_int q.rating_answer_sortorder)) from by
        rw [profKV, if_pos hq]]
      rw [List.filter_cons]
      by_cases hc : convert_to_key q.ratingscalequestiontext = s
      · rw [show (("prof_" ++ convert_to_key q.ratingscalequestiontext,
            CellVal.iopt (safe_int q.rating_answer_sortorder)).1 == "prof_" ++ s) = true from by
          simp only [beq_iff_eq]
          rw [hc]]
        rw [show ((!(q.ratingscalequestiontext == "")) &&
            (convert_to_key q.ratingscalequestiontext == s)) = true from by simp [hq, hc]]
        simp only [if_true, List.map_cons]
        rw [ih, hc]
      · rw [show (("prof_" ++ convert_to_key q.ratingscalequestiontext,
            CellVal.iopt (safe_int q.rating_answer_sortorder)).1 == "prof_" ++ s) = false from by
          simp only [beq_eq_false_iff_ne, ne_eq]
          rw [string_append_right_inj]
          exact hc]
        rw [show ((!(q.ratingscalequestiontext == "")) &&
            (convert_to_key q.ratingscalequestiontext == s)) = false from by simp [hc]]
        simp only [Bool.false_eq_true, if_false]
        exact ih

/-- Every communication update key is one of the three `comm_*` keys. -/
theorem commKV_keys {r : RawRow} {kv : String × CellVal} (h : commKV r = some kv) :
    kv.1 = "comm_listening" ∨ kv.1 = "comm_decision_making" ∨ kv.1 = "comm_advocacy" := by
  rw [commKV] at h
  split_ifs at h with h1 h2 h3
  · simp only [Option.map_some', Option.some.injEq] at h
    exact Or.inl (by rw [← h])
  · simp only [Option.map_some', Option.some.injEq] at h
    exact Or.inr (Or.inl (by rw [← h]))
  · simp only [Option.map_some', Option.some.injEq] at h
    exact Or.inr (Or.inr (by rw [← h]))
  · exact absurd h (by simp)

/-- Every EPA update key starts with `epa`. -/
theorem epaKV_keys {r : RawRow} {kv : String × CellVal} (h : epaKV r = some kv) :
    ∃ t : String, kv.1 = "epa" ++ t := by
  rw [epaKV] at h
  cases hs : epaSearch r.questionname.data with
  | none => rw [hs] at h; cases h
  | some digits =>
    rw [hs] at h
    simp only [Option.map_some', Option.some.injEq] at h
    exact ⟨⟨digits⟩, by rw [← h]⟩

/-- Claim C8 (amended): the professionalism extraction keeps exactly the
rows whose question name EQUALS "Professionalism:" (a question name that
merely contains the substring is ignored); for a nonempty slug `s`, the
emitted record maps `prof_<s>` to `_safe_int` of the rating of the LAST
block row with that slug (question name exactly "Professionalism:" and
nonempty rating-scale question text converting to `s`) — in particular,
with a single such row carrying an integer rating the record holds that
integer. -/
theorem C8_professionalism_keys :
    (∀ (block : List RawRow) (q : RawRow),
      q ∈ profRows block ↔ q ∈ block ∧ q.questionname = "Professionalism:") ∧
    (∀ (student form phase year rdate : String) (block : List RawRow) (rec : Record)
      (s : String) (r : RawRow),
      blockRecord student form phase year rdate block = some rec →
      ((profRows block).filter (fun q => (!(q.ratingscalequestiontext == "")) &&
          (convert_to_key q.ratingscalequestiontext == s))).getLast? = some r →
      rec ("prof_" ++ s) = some (.iopt (safe_int r.rating_answer_sortorder))) := by
  constructor
  · intro block q
    rw [profRows]
    rw [List.mem_filter]
    simp [notnaStr]
  · intro student form phase year rdate block rec s r hrec hlast
    rw [blockRecord] at hrec
    cases hrole : block.filter isRoleRow with
    | nil => rw [hrole] at hrec; cases hrec
    | cons roleRow rest =>
      rw [hrole] at hrec
      simp only [Option.some.injEq] at hrec
      subst hrec
      rw [foldl_applyKV_ne epaKV _ _ _ (by
        intro r' _ kv hkv hc
        obtain ⟨t, ht⟩ := epaKV_keys hkv
        exact prof_key_ne_epa s t (hc ▸ ht ▸ rfl))]
      rw [foldl_applyKV_ne commKV _ _ _ (by
        intro r' _ kv hkv hc
        exact prof_key_ne_comm s kv.1 (commKV_keys hkv) hc.symm)]
      rw [foldl_applyKV_last profKV]
      rw [profKV_filter]
      rw [List.getLast?_map, hlast]
      rfl

/-- The sentinel row of the claim C8 blocks. -/
def roleRow8 : RawRow :=
  { student := "S1", formname := "F", phasename := "P",
    academicyearname := "Y", releasedate := "D",
    questionname := "Please select your role:", questionchoicetext := "Attending",
    rating_answer_sortorder := "", ratingscalequestiontext := "",
    text_answer_category := "", text_answer := "" }

/-- A rated row whose question name contains "Professionalism:" but is
not exactly equal to it. -/
def profRow8 : RawRow :=
  { roleRow8 with
    questionname := "Professionalism: Integrity"
    rating_answer_sortorder := "3"
    ratingscalequestiontext := "Honesty"
    questionchoicetext := "" }

/-- Claim C8 counterexample: a rated row whose question name contains
"Professionalism:" without being equal to it produces NO `prof_honesty`
key in the emitted record, although the claim promises the key with
value 3. -/
theorem C8_counterexample :
    strHas profRow8.questionname "Professionalism:" = true ∧
    safe_int profRow8.rating_answer_sortorder = some 3 ∧
    convert_to_key profRow8.ratingscalequestiontext = "honesty" ∧
    ((blockRecord "S1" "F" "P" "Y" "D" [roleRow8, profRow8]).map
      (fun rec => rec "prof_honesty")) = some none := by
  exact ⟨by decide, by decide, by decide, by decide⟩

/-- The exactly-named professionalism row for the claim C8 witness. -/
def profRow8w : RawRow :=
  { profRow8 with questionname := "Professionalism:" }

/-- Claim C8 witness: with the question name exactly "Professionalism:",
the emitted record maps `prof_honesty` to the integer rating 3. -/
theorem C8_professionalism_keys_witness :
    ((blockRecord "S1" "F" "P" "Y" "D" [roleRow8, profRow8w]).map
      (fun rec => rec "prof_honesty")) = some (some (.iopt (some 3))) := by
  cases hb : blockRecord "S1" "F" "P" "Y" "D" [roleRow8, profRow8w] with
  | none => exact absurd (congrArg Option.isSome hb) (by decide)
  | some rec =>
    have h := C8_professionalism_keys.2 "S1" "F" "P" "Y" "D" [roleRow8, profRow8w] rec
      "honesty" profRow8w hb (by decide)
    rw [Option.map_some']
    rw [show ("prof_" ++ "honesty" : String) = "prof_honesty" from by decide] at h
    rw [h]
    rw [show safe_int profRow8w.rating_answer_sortorder = some 3 from by decide]

end CPA
